import Mathlib

/-!
# Verification of the discord-cli-bot terminal mediation engine

A shallow embedding, in Lean 4, of the per-session terminal mediation engine
of `comm.py`: the SGR/OSC byte classifier (`check_sgr_osc`, `trim_sgr_osc`),
the `handle_ptm` output state machine and flush scheduler, the prompt
clean-up path of `handle_cmd`, the cmd/ptm race tiebreaker of `on_cmd_ptm`,
and the FUSE-backed upload file (`DiscordUploaderFile`).

Byte strings are modelled as `List Nat` (one entry per byte).  Python
`IndexError` on `bytes` indexing is modelled by `Except Unit` results
(`.error ()` = the access raised).  Where the Python code would raise an
uncaught exception (an `assert` failure, or an `AttributeError` on a missing
terminal screen) the embedded function returns `none`.
-/

/-- First index `j ≥ start` with `d[j] = b`, or `none`.
Models Python `data.find(bytes([b]), start)` (restricted to the
single-byte needles the source uses). -/
def findFrom (d : List Nat) (b : Nat) (start : Nat) : Option Nat :=
  match d, start with
  | [], _ => none
  | x :: xs, 0 => if x = b then some 0 else (findFrom xs b 0).map (· + 1)
  | _ :: xs, s + 1 => (findFrom xs b s).map (· + 1)

/-- Last index of `b` in `l`, or `none`; models Python `data.rfind(bytes([b]))`. -/
def rfindByte (b : Nat) : List Nat → Option Nat
  | [] => none
  | x :: xs =>
    match rfindByte b xs with
    | some j => some (j + 1)
    | none => if x = b then some 0 else none

theorem findFrom_ge {d : List Nat} {b s j : Nat} (h : findFrom d b s = some j) :
    s ≤ j := by
  induction d generalizing s j with
  | nil => simp [findFrom] at h
  | cons x xs ih =>
    cases s with
    | zero => exact Nat.zero_le _
    | succ s =>
      simp only [findFrom, Option.map_eq_some'] at h
      obtain ⟨j', hj', rfl⟩ := h
      exact Nat.succ_le_succ (ih hj')

theorem findFrom_getElem {d : List Nat} {b s j : Nat} (h : findFrom d b s = some j) :
    d[j]? = some b := by
  induction d generalizing s j with
  | nil => simp [findFrom] at h
  | cons x xs ih =>
    cases s with
    | zero =>
      by_cases hx : x = b
      · simp [findFrom, hx] at h
        simp [← h, hx]
      · simp only [findFrom, hx, if_false, Option.map_eq_some'] at h
        obtain ⟨j', hj', rfl⟩ := h
        simpa using ih hj'
    | succ s =>
      simp only [findFrom, Option.map_eq_some'] at h
      obtain ⟨j', hj', rfl⟩ := h
      simpa using ih hj'

theorem findFrom_lt_length {d : List Nat} {b s j : Nat} (h : findFrom d b s = some j) :
    j < d.length := by
  have := findFrom_getElem h
  exact (List.getElem?_eq_some.mp this).1

theorem findFrom_min {d : List Nat} {b s j : Nat} (h : findFrom d b s = some j) :
    ∀ k, s ≤ k → k < j → d[k]? ≠ some b := by
  induction d generalizing s j with
  | nil => simp [findFrom] at h
  | cons x xs ih =>
    cases s with
    | zero =>
      by_cases hx : x = b
      · simp [findFrom, hx] at h
        omega
      · simp only [findFrom, hx, if_false, Option.map_eq_some'] at h
        obtain ⟨j', hj', rfl⟩ := h
        intro k _ hk
        cases k with
        | zero => simpa using hx
        | succ k =>
          simpa using ih hj' k (Nat.zero_le _) (Nat.lt_of_succ_lt_succ hk)
    | succ s =>
      simp only [findFrom, Option.map_eq_some'] at h
      obtain ⟨j', hj', rfl⟩ := h
      intro k hk hkj
      cases k with
      | zero => omega
      | succ k =>
        simpa using ih hj' k (Nat.le_of_succ_le_succ hk) (Nat.lt_of_succ_lt_succ hkj)

theorem findFrom_none {d : List Nat} {b s : Nat} (h : findFrom d b s = none) :
    ∀ k, s ≤ k → d[k]? ≠ some b := by
  induction d generalizing s with
  | nil => intro k _; simp
  | cons x xs ih =>
    cases s with
    | zero =>
      by_cases hx : x = b
      · simp [findFrom, hx] at h
      · simp only [findFrom, hx, if_false, Option.map_eq_none'] at h
        intro k _ hk
        cases k with
        | zero => simp at hk; exact hx hk
        | succ k =>
          simp only [List.getElem?_cons_succ] at hk
          exact ih h k (Nat.zero_le _) hk
    | succ s =>
      simp only [findFrom, Option.map_eq_none'] at h
      intro k hk hget
      cases k with
      | zero => omega
      | succ k =>
        simp only [List.getElem?_cons_succ] at hget
        exact ih h k (Nat.le_of_succ_le_succ hk) hget

/-! ## The SGR/OSC classifier (`check_sgr_osc`, comm.py lines 267-312)

`check_sgr_osc(data, ind)` is called with `data[ind] = 0x1B`.  Results:
`.ok (some e)` models Python `(True, e)` (recognized run, `e` one past its
last byte), `.ok none` models `(False, None)` (definitely not SGR/OSC), and
`.error ()` models an `IndexError` escaping the function (the suffix is an
undecidable tail). -/

/-- The CSI parameter loop: `for i in itertools.count(ind + 2)` scanning for
`m` (SGR terminator) over digits and `;`. -/
def csiScan (d : List Nat) (i : Nat) : Except Unit (Option Nat) :=
  match h : d[i]? with
  | none => .error ()
  | some b =>
    if b = 109 then .ok (some (i + 1))          -- b'm': SGR
    else if b = 59 then csiScan d (i + 1)       -- b';'
    else if 48 ≤ b ∧ b ≤ 57 then csiScan d (i + 1)  -- b'0' .. b'9'
    else .ok none
termination_by d.length - i
decreasing_by
  all_goals
    have : i < d.length := (List.getElem?_eq_some.mp h).1
    omega

/-- The OSC terminator loop: `for i in itertools.count(ind + 3)` scanning for
BEL (7) or ST (`ESC \`). -/
def oscScan (d : List Nat) (i : Nat) : Except Unit (Option Nat) :=
  match h : d[i]? with
  | none => .error ()
  | some b =>
    if b = 7 then .ok (some (i + 1))            -- BEL termination
    else if b = 27 then
      match d[i + 1]? with
      | none => .error ()
      | some b2 =>
        if b2 = 92 then .ok (some (i + 2))      -- b'\\': ST termination
        else oscScan d (i + 1)
    else oscScan d (i + 1)
termination_by d.length - i
decreasing_by
  all_goals
    have : i < d.length := (List.getElem?_eq_some.mp h).1
    omega

/-- `check_sgr_osc(data, ind)` from comm.py.  The bracketed-paste test
(`ESC [ ? 2 0 0 4 h/l`) short-circuits exactly as the Python `and` chain
does; every failed comparison falls through to the CSI scan starting at
`ind + 2`, as the `for` loop does. -/
def check_sgr_osc (data : List Nat) (ind : Nat) : Except Unit (Option Nat) :=
  match data[ind + 1]? with
  | none => .error ()
  | some b1 =>
    if b1 = 91 then                             -- b'[': CSI
      match data[ind + 2]? with
      | none => .error ()
      | some b2 =>
        if b2 = 63 then                         -- b'?'
          match data[ind + 3]? with
          | none => .error ()
          | some b3 =>
            if b3 = 50 then                     -- b'2'
              match data[ind + 4]? with
              | none => .error ()
              | some b4 =>
                if b4 = 48 then                 -- b'0'
                  match data[ind + 5]? with
                  | none => .error ()
                  | some b5 =>
                    if b5 = 48 then             -- b'0'
                      match data[ind + 6]? with
                      | none => .error ()
                      | some b6 =>
                        if b6 = 52 then         -- b'4'
                          match data[ind + 7]? with
                          | none => .error ()
                          | some b7 =>
                            if b7 = 104 ∨ b7 = 108 then  -- b'h', b'l'
                              .ok (some (ind + 8))
                            else csiScan data (ind + 2)
                        else csiScan data (ind + 2)
                    else csiScan data (ind + 2)
                else csiScan data (ind + 2)
            else csiScan data (ind + 2)
        else csiScan data (ind + 2)
    else if b1 = 93 then                        -- b']': OSC
      match data[ind + 2]? with
      | none => .error ()
      | some b2 =>
        if b2 = 80 then                         -- b'P': set palette
          match data[ind + 8]? with             -- the bare `data[ind + 8]`
          | none => .error ()
          | some _ => .ok (some (ind + 9))
        else if b2 = 82 then .ok (some (ind + 3))  -- b'R': reset palette
        else oscScan data (ind + 3)
    else .ok none

theorem csiScan_bounds {d : List Nat} {i e : Nat}
    (h : csiScan d i = .ok (some e)) : i < e ∧ e ≤ d.length := by
  induction i using csiScan.induct d with
  | case1 i hi => rw [csiScan, hi] at h; exact absurd h (by simp)
  | case2 i hb =>
    rw [csiScan, hb] at h
    simp at h
    have hi : i < d.length := (List.getElem?_eq_some.mp hb).1
    omega
  | case3 i hb hm ih =>
    rw [csiScan, hb] at h
    simp at h
    have := ih h; omega
  | case4 i b hb hm hsemi hdig ih =>
    rw [csiScan, hb] at h
    simp only [if_neg hm, if_neg hsemi, if_pos hdig] at h
    have := ih h; omega
  | case5 i b hb hm hsemi hdig =>
    rw [csiScan, hb] at h
    simp only [if_neg hm, if_neg hsemi, if_neg hdig] at h
    exact absurd h (by simp)

theorem oscScan_bounds {d : List Nat} {i e : Nat}
    (h : oscScan d i = .ok (some e)) : i < e ∧ e ≤ d.length := by
  induction i using oscScan.induct d with
  | case1 i hi => rw [oscScan, hi] at h; exact absurd h (by simp)
  | case2 i hb =>
    rw [oscScan, hb] at h
    simp at h
    have hi : i < d.length := (List.getElem?_eq_some.mp hb).1
    omega
  | case3 i h2 hb hbel =>
    rw [oscScan, hb] at h
    simp only [h2] at h
    simp at h
  | case4 i hb hbel h2 =>
    rw [oscScan, hb] at h
    simp only [h2] at h
    simp at h
    have hi : i + 1 < d.length := (List.getElem?_eq_some.mp h2).1
    omega
  | case5 i b2 h2 hst hb hbel ih =>
    rw [oscScan, hb] at h
    simp only [h2] at h
    simp only [if_neg hst] at h
    simp at h
    have := ih h; omega
  | case6 i b hb hbel hesc ih =>
    rw [oscScan, hb] at h
    simp only [if_neg hbel, if_neg hesc] at h
    have := ih h; omega

theorem check_sgr_osc_bounds {d : List Nat} {i e : Nat}
    (h : check_sgr_osc d i = .ok (some e)) : i < e ∧ e ≤ d.length := by
  unfold check_sgr_osc at h
  split at h
  · exact absurd h (by simp)
  next b1 hb1 =>
    split at h
    · -- CSI arm
      split at h
      · exact absurd h (by simp)
      next b2 hb2 =>
        by_cases h63 : b2 = 63
        · rw [if_pos h63] at h
          split at h
          · exact absurd h (by simp)
          next b3 hb3 =>
            by_cases h50 : b3 = 50
            · rw [if_pos h50] at h
              split at h
              · exact absurd h (by simp)
              next b4 hb4 =>
                by_cases h48 : b4 = 48
                · rw [if_pos h48] at h
                  split at h
                  · exact absurd h (by simp)
                  next b5 hb5 =>
                    by_cases h48' : b5 = 48
                    · rw [if_pos h48'] at h
                      split at h
                      · exact absurd h (by simp)
                      next b6 hb6 =>
                        by_cases h52 : b6 = 52
                        · rw [if_pos h52] at h
                          split at h
                          · exact absurd h (by simp)
                          next b7 hb7 =>
                            by_cases hhl : b7 = 104 ∨ b7 = 108
                            · rw [if_pos hhl] at h
                              have h7 : i + 7 < d.length :=
                                (List.getElem?_eq_some.mp hb7).1
                              cases h; omega
                            · rw [if_neg hhl] at h
                              have := csiScan_bounds h; omega
                        · rw [if_neg h52] at h
                          have := csiScan_bounds h; omega
                    · rw [if_neg h48'] at h
                      have := csiScan_bounds h; omega
                · rw [if_neg h48] at h
                  have := csiScan_bounds h; omega
            · rw [if_neg h50] at h
              have := csiScan_bounds h; omega
        · rw [if_neg h63] at h
          have := csiScan_bounds h; omega
    · split at h
      · -- OSC arm
        split at h
        · exact absurd h (by simp)
        next b2 hb2 =>
          by_cases h80 : b2 = 80
          · rw [if_pos h80] at h
            split at h
            · exact absurd h (by simp)
            next hb8 =>
              have h8 : i + 8 < d.length := (List.getElem?_eq_some.mp hb8).1
              cases h; omega
          · rw [if_neg h80] at h
            by_cases h82 : b2 = 82
            · rw [if_pos h82] at h
              have h2 : i + 2 < d.length := (List.getElem?_eq_some.mp hb2).1
              cases h; omega
            · rw [if_neg h82] at h
              have := oscScan_bounds h; omega
      · exact absurd h (by simp)


/-! ### Suffix determinism of the classifier

`check_sgr_osc d i` reads only bytes at positions `≥ i`, so its result is a
function of the suffix `d.drop t` (with the returned end index shifted).
These lemmas let the `handle_ptm` proofs relate classifications of the same
bytes sitting at different offsets in different buffers. -/

/-- Shifts the end index of a successful classification by `t`. -/
def shiftE (t : Nat) : Except Unit (Option Nat) → Except Unit (Option Nat)
  | .ok (some e) => .ok (some (e + t))
  | x => x

theorem findFrom_shift (b : Nat) :
    ∀ (t : Nat) (d : List Nat) (j : Nat),
      findFrom d b (t + j) = (findFrom (d.drop t) b j).map (· + t) := by
  intro t
  induction t with
  | zero =>
    intro d j
    simp only [Nat.zero_add, List.drop_zero]
    cases findFrom d b j <;> simp
  | succ t ih =>
    intro d j
    cases d with
    | nil => simp [findFrom]
    | cons x xs =>
      have harith : t + 1 + j = (t + j) + 1 := by omega
      rw [harith]
      show (findFrom xs b (t + j)).map (· + 1) = _
      rw [ih xs j]
      have hdrop : (x :: xs).drop (t + 1) = xs.drop t := rfl
      rw [hdrop]
      cases findFrom (xs.drop t) b j with
      | none => simp
      | some a =>
        simp only [Option.map_some']
        congr 1

theorem csiScan_shift (d : List Nat) (t : Nat) :
    ∀ j, csiScan d (t + j) = shiftE t (csiScan (d.drop t) j) := by
  intro j
  induction j using csiScan.induct (d.drop t) with
  | case1 j hj =>
    have hget : d[t + j]? = none := by rw [← List.getElem?_drop]; exact hj
    unfold csiScan
    rw [hget, hj]
    rfl
  | case2 j hj =>
    have hget : d[t + j]? = some 109 := by rw [← List.getElem?_drop]; exact hj
    unfold csiScan
    rw [hget, hj]
    simp [shiftE]
    omega
  | case3 j hj hne ih =>
    have hget : d[t + j]? = some 59 := by rw [← List.getElem?_drop]; exact hj
    unfold csiScan
    rw [hget, hj]
    norm_num
    have h1 : t + j + 1 = t + (j + 1) := by omega
    rw [h1]
    exact ih
  | case4 j b hj hm hs hd ih =>
    have hget : d[t + j]? = some b := by rw [← List.getElem?_drop]; exact hj
    unfold csiScan
    rw [hget, hj]
    simp only [if_neg hm, if_neg hs, if_pos hd]
    have h1 : t + j + 1 = t + (j + 1) := by omega
    rw [h1]
    exact ih
  | case5 j b hj hm hs hd =>
    have hget : d[t + j]? = some b := by rw [← List.getElem?_drop]; exact hj
    unfold csiScan
    rw [hget, hj]
    simp only [if_neg hm, if_neg hs, if_neg hd]
    rfl

theorem oscScan_shift (d : List Nat) (t : Nat) :
    ∀ j, oscScan d (t + j) = shiftE t (oscScan (d.drop t) j) := by
  intro j
  induction j using oscScan.induct (d.drop t) with
  | case1 j hj =>
    have hget : d[t + j]? = none := by rw [← List.getElem?_drop]; exact hj
    unfold oscScan
    rw [hget, hj]
    rfl
  | case2 j hj =>
    have hget : d[t + j]? = some 7 := by rw [← List.getElem?_drop]; exact hj
    unfold oscScan
    rw [hget, hj]
    simp [shiftE]
    omega
  | case3 j h2 hj hne =>
    have hget : d[t + j]? = some 27 := by rw [← List.getElem?_drop]; exact hj
    have hget2' : d[t + (j + 1)]? = none := by
      rw [← List.getElem?_drop]; exact h2
    have hget2 : d[t + j + 1]? = none := hget2'
    unfold oscScan
    rw [hget, hj]
    norm_num
    rw [hget2, hget2']
    rfl
  | case4 j hj hne h2 =>
    have hget : d[t + j]? = some 27 := by rw [← List.getElem?_drop]; exact hj
    have hget2' : d[t + (j + 1)]? = some 92 := by
      rw [← List.getElem?_drop]; exact h2
    have hget2 : d[t + j + 1]? = some 92 := hget2'
    unfold oscScan
    rw [hget, hj]
    norm_num
    rw [hget2, hget2']
    simp [shiftE]
    omega
  | case5 j b2 h2 hst hj hne ih =>
    have hget : d[t + j]? = some 27 := by rw [← List.getElem?_drop]; exact hj
    have hget2' : d[t + (j + 1)]? = some b2 := by
      rw [← List.getElem?_drop]; exact h2
    have hget2 : d[t + j + 1]? = some b2 := hget2'
    unfold oscScan
    rw [hget, hj]
    norm_num
    rw [hget2, hget2']
    simp only [if_neg hst]
    have h1 : t + j + 1 = t + (j + 1) := by omega
    rw [h1]
    exact ih
  | case6 j b hj hbel hesc ih =>
    have hget : d[t + j]? = some b := by rw [← List.getElem?_drop]; exact hj
    unfold oscScan
    rw [hget, hj]
    simp only [if_neg hbel, if_neg hesc]
    have h1 : t + j + 1 = t + (j + 1) := by omega
    rw [h1]
    exact ih

theorem check_sgr_osc_shift (d : List Nat) (t j : Nat) :
    check_sgr_osc d (t + j) = shiftE t (check_sgr_osc (d.drop t) j) := by
  have e1 : d[t + j + 1]? = (d.drop t)[j + 1]? := (List.getElem?_drop d t (j + 1)).symm
  have e2 : d[t + j + 2]? = (d.drop t)[j + 2]? := (List.getElem?_drop d t (j + 2)).symm
  have e3 : d[t + j + 3]? = (d.drop t)[j + 3]? := (List.getElem?_drop d t (j + 3)).symm
  have e4 : d[t + j + 4]? = (d.drop t)[j + 4]? := (List.getElem?_drop d t (j + 4)).symm
  have e5 : d[t + j + 5]? = (d.drop t)[j + 5]? := (List.getElem?_drop d t (j + 5)).symm
  have e6 : d[t + j + 6]? = (d.drop t)[j + 6]? := (List.getElem?_drop d t (j + 6)).symm
  have e7 : d[t + j + 7]? = (d.drop t)[j + 7]? := (List.getElem?_drop d t (j + 7)).symm
  have e8 : d[t + j + 8]? = (d.drop t)[j + 8]? := (List.getElem?_drop d t (j + 8)).symm
  have hcsi : csiScan d (t + j + 2) = shiftE t (csiScan (d.drop t) (j + 2)) :=
    csiScan_shift d t (j + 2)
  have hosc : oscScan d (t + j + 3) = shiftE t (oscScan (d.drop t) (j + 3)) :=
    oscScan_shift d t (j + 3)
  unfold check_sgr_osc
  rw [e1]
  cases hb1 : (d.drop t)[j + 1]? with
  | none => rfl
  | some b1 =>
    dsimp only
    by_cases h91 : b1 = 91
    · rw [if_pos h91, if_pos h91, e2]
      cases hb2 : (d.drop t)[j + 2]? with
      | none => rfl
      | some b2 =>
        dsimp only
        by_cases h63 : b2 = 63
        · rw [if_pos h63, if_pos h63, e3]
          cases hb3 : (d.drop t)[j + 3]? with
          | none => rfl
          | some b3 =>
            dsimp only
            by_cases h50 : b3 = 50
            · rw [if_pos h50, if_pos h50, e4]
              cases hb4 : (d.drop t)[j + 4]? with
              | none => rfl
              | some b4 =>
                dsimp only
                by_cases h48 : b4 = 48
                · rw [if_pos h48, if_pos h48, e5]
                  cases hb5 : (d.drop t)[j + 5]? with
                  | none => rfl
                  | some b5 =>
                    dsimp only
                    by_cases h48' : b5 = 48
                    · rw [if_pos h48', if_pos h48', e6]
                      cases hb6 : (d.drop t)[j + 6]? with
                      | none => rfl
                      | some b6 =>
                        dsimp only
                        by_cases h52 : b6 = 52
                        · rw [if_pos h52, if_pos h52, e7]
                          cases hb7 : (d.drop t)[j + 7]? with
                          | none => rfl
                          | some b7 =>
                            dsimp only
                            by_cases hhl : b7 = 104 ∨ b7 = 108
                            · rw [if_pos hhl, if_pos hhl]
                              simp [shiftE]
                              omega
                            · rw [if_neg hhl, if_neg hhl]
                              exact hcsi
                        · rw [if_neg h52, if_neg h52]
                          exact hcsi
                    · rw [if_neg h48', if_neg h48']
                      exact hcsi
                · rw [if_neg h48, if_neg h48]
                  exact hcsi
            · rw [if_neg h50, if_neg h50]
              exact hcsi
        · rw [if_neg h63, if_neg h63]
          exact hcsi
    · rw [if_neg h91, if_neg h91]
      by_cases h93 : b1 = 93
      · rw [if_pos h93, if_pos h93, e2]
        cases hb2 : (d.drop t)[j + 2]? with
        | none => rfl
        | some b2 =>
          dsimp only
          by_cases h80 : b2 = 80
          · rw [if_pos h80, if_pos h80, e8]
            cases hb8 : (d.drop t)[j + 8]? with
            | none => rfl
            | some b8 =>
              simp [shiftE]
              omega
          · rw [if_neg h80, if_neg h80]
            by_cases h82 : b2 = 82
            · rw [if_pos h82, if_pos h82]
              simp [shiftE]
              omega
            · rw [if_neg h82, if_neg h82]
              exact hosc
      · rw [if_neg h93, if_neg h93]
        rfl

/-! ### Prefix stability: a successful classification ending at `e ≤ m` is
unchanged by truncating the buffer at `m`. -/

theorem getElem?_take_of_lt {d : List Nat} {k m : Nat} (h : k < m) :
    (d.take m)[k]? = d[k]? := by
  rw [List.getElem?_take]
  exact if_pos h

theorem csiScan_take {d : List Nat} {i e m : Nat}
    (h : csiScan d i = .ok (some e)) (hm : e ≤ m) :
    csiScan (d.take m) i = .ok (some e) := by
  induction i using csiScan.induct d with
  | case1 i hi => rw [csiScan, hi] at h; exact absurd h (by simp)
  | case2 i hb =>
    rw [csiScan, hb] at h
    simp at h
    have hi : i < m := by omega
    rw [csiScan, getElem?_take_of_lt hi, hb]
    simp
    omega
  | case3 i hb hne ih =>
    rw [csiScan, hb] at h
    simp at h
    have hb2 := csiScan_bounds h
    have hi : i < m := by omega
    rw [csiScan, getElem?_take_of_lt hi, hb]
    simp
    exact ih h
  | case4 i b hb hm' hsemi hdig ih =>
    rw [csiScan, hb] at h
    simp only [if_neg hm', if_neg hsemi, if_pos hdig] at h
    have hb2 := csiScan_bounds h
    have hi : i < m := by omega
    rw [csiScan, getElem?_take_of_lt hi, hb]
    simp only [if_neg hm', if_neg hsemi, if_pos hdig]
    exact ih h
  | case5 i b hb hm' hsemi hdig =>
    rw [csiScan, hb] at h
    simp only [if_neg hm', if_neg hsemi, if_neg hdig] at h
    exact absurd h (by simp)

theorem oscScan_take {d : List Nat} {i e m : Nat}
    (h : oscScan d i = .ok (some e)) (hm : e ≤ m) :
    oscScan (d.take m) i = .ok (some e) := by
  induction i using oscScan.induct d with
  | case1 i hi => rw [oscScan, hi] at h; exact absurd h (by simp)
  | case2 i hb =>
    rw [oscScan, hb] at h
    simp at h
    have hi : i < m := by omega
    rw [oscScan, getElem?_take_of_lt hi, hb]
    simp
    omega
  | case3 i h2 hb hbel =>
    rw [oscScan, hb] at h
    simp only [h2] at h
    simp at h
  | case4 i hb hbel h2 =>
    rw [oscScan, hb] at h
    simp only [h2] at h
    simp at h
    have hi : i < m := by omega
    have hi2 : i + 1 < m := by omega
    rw [oscScan, getElem?_take_of_lt hi, hb]
    simp
    rw [getElem?_take_of_lt hi2, h2]
    simp
    omega
  | case5 i b2 h2 hst hb hbel ih =>
    rw [oscScan, hb] at h
    simp only [h2] at h
    simp only [if_neg hst] at h
    simp at h
    have hb2 := oscScan_bounds h
    have hi : i < m := by omega
    have hi2 : i + 1 < m := by omega
    rw [oscScan, getElem?_take_of_lt hi, hb]
    simp
    rw [getElem?_take_of_lt hi2, h2]
    simp only [if_neg hst]
    exact ih h
  | case6 i b hb hbel hesc ih =>
    rw [oscScan, hb] at h
    simp only [if_neg hbel, if_neg hesc] at h
    have hb2 := oscScan_bounds h
    have hi : i < m := by omega
    rw [oscScan, getElem?_take_of_lt hi, hb]
    simp only [if_neg hbel, if_neg hesc]
    exact ih h

theorem check_sgr_osc_take {d : List Nat} {i e m : Nat}
    (h : check_sgr_osc d i = .ok (some e)) (hm : e ≤ m) :
    check_sgr_osc (d.take m) i = .ok (some e) := by
  have hbd := check_sgr_osc_bounds h
  unfold check_sgr_osc at h
  split at h
  · exact absurd h (by simp)
  next b1 hb1 =>
    by_cases h91 : b1 = 91
    · rw [if_pos h91] at h
      split at h
      · exact absurd h (by simp)
      next b2 hb2 =>
        by_cases h63 : b2 = 63
        · rw [if_pos h63] at h
          split at h
          · exact absurd h (by simp)
          next b3 hb3 =>
            by_cases h50 : b3 = 50
            · rw [if_pos h50] at h
              split at h
              · exact absurd h (by simp)
              next b4 hb4 =>
                by_cases h48 : b4 = 48
                · rw [if_pos h48] at h
                  split at h
                  · exact absurd h (by simp)
                  next b5 hb5 =>
                    by_cases h48' : b5 = 48
                    · rw [if_pos h48'] at h
                      split at h
                      · exact absurd h (by simp)
                      next b6 hb6 =>
                        by_cases h52 : b6 = 52
                        · rw [if_pos h52] at h
                          split at h
                          · exact absurd h (by simp)
                          next b7 hb7 =>
                            by_cases hhl : b7 = 104 ∨ b7 = 108
                            · rw [if_pos hhl] at h
                              have he : e = i + 8 := by cases h; rfl
                              subst he
                              have t1 : (d.take m)[i + 1]? = some b1 := by
                                rw [getElem?_take_of_lt (show i + 1 < m by omega)]; exact hb1
                              have t2 : (d.take m)[i + 2]? = some b2 := by
                                rw [getElem?_take_of_lt (show i + 2 < m by omega)]; exact hb2
                              have t3 : (d.take m)[i + 3]? = some b3 := by
                                rw [getElem?_take_of_lt (show i + 3 < m by omega)]; exact hb3
                              have t4 : (d.take m)[i + 4]? = some b4 := by
                                rw [getElem?_take_of_lt (show i + 4 < m by omega)]; exact hb4
                              have t5 : (d.take m)[i + 5]? = some b5 := by
                                rw [getElem?_take_of_lt (show i + 5 < m by omega)]; exact hb5
                              have t6 : (d.take m)[i + 6]? = some b6 := by
                                rw [getElem?_take_of_lt (show i + 6 < m by omega)]; exact hb6
                              have t7 : (d.take m)[i + 7]? = some b7 := by
                                rw [getElem?_take_of_lt (show i + 7 < m by omega)]; exact hb7
                              simp [check_sgr_osc, t1, t2, t3, t4, t5, t6, t7,
                                h91, h63, h50, h48, h48', h52, hhl]
                            · rw [if_neg hhl] at h
                              rw [csiScan, hb2] at h
                              subst h63
                              simp at h
                        · rw [if_neg h52] at h
                          rw [csiScan, hb2] at h
                          subst h63
                          simp at h
                    · rw [if_neg h48'] at h
                      rw [csiScan, hb2] at h
                      subst h63
                      simp at h
                · rw [if_neg h48] at h
                  rw [csiScan, hb2] at h
                  subst h63
                  simp at h
            · rw [if_neg h50] at h
              rw [csiScan, hb2] at h
              subst h63
              simp at h
        · rw [if_neg h63] at h
          have hb := csiScan_bounds h
          have t1 : (d.take m)[i + 1]? = some b1 := by
            rw [getElem?_take_of_lt (show i + 1 < m by omega)]; exact hb1
          have t2 : (d.take m)[i + 2]? = some b2 := by
            rw [getElem?_take_of_lt (show i + 2 < m by omega)]; exact hb2
          simp [check_sgr_osc, t1, t2, h91, h63]
          exact csiScan_take h hm
    · rw [if_neg h91] at h
      by_cases h93 : b1 = 93
      · rw [if_pos h93] at h
        split at h
        · exact absurd h (by simp)
        next b2 hb2 =>
          by_cases h80 : b2 = 80
          · rw [if_pos h80] at h
            split at h
            · exact absurd h (by simp)
            next b8 hb8 =>
              have he : e = i + 9 := by cases h; rfl
              subst he
              have t1 : (d.take m)[i + 1]? = some b1 := by
                rw [getElem?_take_of_lt (show i + 1 < m by omega)]; exact hb1
              have t2 : (d.take m)[i + 2]? = some b2 := by
                rw [getElem?_take_of_lt (show i + 2 < m by omega)]; exact hb2
              have t8 : (d.take m)[i + 8]? = some b8 := by
                rw [getElem?_take_of_lt (show i + 8 < m by omega)]; exact hb8
              simp [check_sgr_osc, t1, t2, t8, h91, h93, h80]
          · rw [if_neg h80] at h
            by_cases h82 : b2 = 82
            · rw [if_pos h82] at h
              have he : e = i + 3 := by cases h; rfl
              subst he
              have t1 : (d.take m)[i + 1]? = some b1 := by
                rw [getElem?_take_of_lt (show i + 1 < m by omega)]; exact hb1
              have t2 : (d.take m)[i + 2]? = some b2 := by
                rw [getElem?_take_of_lt (show i + 2 < m by omega)]; exact hb2
              simp [check_sgr_osc, t1, t2, h91, h93, h80, h82]
            · rw [if_neg h82] at h
              have hb := oscScan_bounds h
              have t1 : (d.take m)[i + 1]? = some b1 := by
                rw [getElem?_take_of_lt (show i + 1 < m by omega)]; exact hb1
              have t2 : (d.take m)[i + 2]? = some b2 := by
                rw [getElem?_take_of_lt (show i + 2 < m by omega)]; exact hb2
              simp [check_sgr_osc, t1, t2, h91, h93, h80, h82]
              exact oscScan_take h hm
      · rw [if_neg h93] at h
        exact absurd h (by simp)

/-! ## The EXEC_DIRECT escape-detection loop (comm.py lines 474-498)

In `handle_ptm`, mode `IN_EXEC_DIRECT`, the code scans `data` for `0x1B`
bytes, skipping recognized SGR/OSC runs:

* `.clean`  — the loop ran off the end (`data.find` returned `-1`);
* `.cut i`  — `check_sgr_osc` raised `IndexError` at the ESC at index `i`
  (the code truncates `data` at `i`, carrying `data[i:]` into pending);
* `.switch` — some ESC begins a sequence that is decidably not SGR/OSC
  (the code discards the buffer and switches to `IN_EXEC_TERMEMU`). -/

inductive ScanRes where
  | clean : ScanRes
  | cut : Nat → ScanRes
  | switch : ScanRes
deriving DecidableEq, Repr

def escScan (d : List Nat) (start : Nat) : ScanRes :=
  match hf : findFrom d 27 start with
  | none => .clean
  | some ind =>
    match hc : check_sgr_osc d ind with
    | .error _ => .cut ind
    | .ok none => .switch
    | .ok (some e) => escScan d e
termination_by d.length - start
decreasing_by
  have h1 := findFrom_ge hf
  have h2 := findFrom_lt_length hf
  have h3 := check_sgr_osc_bounds hc
  omega

theorem escScan_cut_ge {d : List Nat} {s i : Nat} (h : escScan d s = .cut i) :
    s ≤ i := by
  induction s using escScan.induct d with
  | case1 s hf =>
    rw [escScan, hf] at h
    exact absurd h (by simp)
  | case2 s ind hf a hc =>
    rw [escScan, hf] at h
    dsimp only at h
    rw [hc] at h
    cases h
    exact findFrom_ge hf
  | case3 s ind hf hc =>
    rw [escScan, hf] at h
    dsimp only at h
    rw [hc] at h
    exact absurd h (by simp)
  | case4 s ind hf e hc ih =>
    rw [escScan, hf] at h
    dsimp only at h
    rw [hc] at h
    have h1 := findFrom_ge hf
    have h3 := check_sgr_osc_bounds hc
    have := ih h
    omega

theorem escScan_cut_facts {d : List Nat} {s i : Nat} (h : escScan d s = .cut i) :
    d[i]? = some 27 ∧ check_sgr_osc d i = .error () ∧ i < d.length := by
  induction s using escScan.induct d with
  | case1 s hf =>
    rw [escScan, hf] at h
    exact absurd h (by simp)
  | case2 s ind hf a hc =>
    rw [escScan, hf] at h
    dsimp only at h
    rw [hc] at h
    cases h
    exact ⟨findFrom_getElem hf, hc, findFrom_lt_length hf⟩
  | case3 s ind hf hc =>
    rw [escScan, hf] at h
    dsimp only at h
    rw [hc] at h
    exact absurd h (by simp)
  | case4 s ind hf e hc ih =>
    rw [escScan, hf] at h
    dsimp only at h
    rw [hc] at h
    exact ih h

/-- Shifting `escScan` to a suffix: the scan reads only positions `≥ start`. -/
theorem escScan_shift (d : List Nat) (t : Nat) :
    ∀ j, escScan d (t + j) =
      (match escScan (d.drop t) j with
       | .cut k => .cut (k + t)
       | r => r) := by
  intro j
  induction j using escScan.induct (d.drop t) with
  | case1 j hf =>
    have hf' : findFrom d 27 (t + j) = none := by
      rw [findFrom_shift, hf]; rfl
    rw [escScan, hf']
    rw [escScan, hf]
  | case2 j ind hf a hc =>
    have hf' : findFrom d 27 (t + j) = some (ind + t) := by
      rw [findFrom_shift, hf]; rfl
    have hc' : check_sgr_osc d (ind + t) = .error () := by
      have hsh := check_sgr_osc_shift d t ind
      have harith : t + ind = ind + t := by omega
      rw [harith] at hsh
      rw [hsh, hc]; rfl
    rw [escScan, hf']
    dsimp only
    rw [hc']
    rw [escScan, hf]
    dsimp only
    rw [hc]
  | case3 j ind hf hc =>
    have hf' : findFrom d 27 (t + j) = some (ind + t) := by
      rw [findFrom_shift, hf]; rfl
    have hc' : check_sgr_osc d (ind + t) = .ok none := by
      have hsh := check_sgr_osc_shift d t ind
      have harith : t + ind = ind + t := by omega
      rw [harith] at hsh
      rw [hsh, hc]; rfl
    rw [escScan, hf']
    dsimp only
    rw [hc']
    rw [escScan, hf]
    dsimp only
    rw [hc]
  | case4 j ind hf e hc ih =>
    have hf' : findFrom d 27 (t + j) = some (ind + t) := by
      rw [findFrom_shift, hf]; rfl
    have hc' : check_sgr_osc d (ind + t) = .ok (some (e + t)) := by
      have hsh := check_sgr_osc_shift d t ind
      have harith : t + ind = ind + t := by omega
      rw [harith] at hsh
      rw [hsh, hc]; rfl
    rw [escScan, hf']
    dsimp only
    rw [hc']
    rw [escScan, hf]
    dsimp only
    rw [hc]
    have harith : e + t = t + e := by omega
    rw [harith]
    exact ih

/-! ## `trim_sgr_osc` (comm.py lines 315-331)

The Python loop keeps a cursor `last_ind`, finds the next `0x1B` from
`last_ind + 1`, classifies it, optionally asserts it is SGR/OSC
(`assert not assert_is or is_sgr_osc`), and splices recognized runs out
(`data = data[:last_ind] + data[end_ind:]`, then rewinds the cursor so the
next `find` starts at the splice point).  `trimLoop d a s` is the loop with
`s = last_ind + 1`; `trim_sgr_osc` enters with `last_ind = -1`, i.e. `s = 0`.

`.error .index` models an escaping `IndexError`, `.error .assertFail` a
failing `assert` (an `AssertionError`). -/

inductive TrimErr where
  | index : TrimErr
  | assertFail : TrimErr
deriving DecidableEq, Repr

def trimLoop (d : List Nat) (assertIs : Bool) (s : Nat) : Except TrimErr (List Nat) :=
  match hf : findFrom d 27 s with
  | none => .ok d
  | some ind =>
    match hc : check_sgr_osc d ind with
    | .error _ => .error .index
    | .ok none =>
      if assertIs then .error .assertFail
      else trimLoop d assertIs (ind + 1)
    | .ok (some e) => trimLoop (d.take ind ++ d.drop e) assertIs ind
termination_by (d.length, d.length - s)
decreasing_by
  · have h1 := findFrom_ge hf
    have h2 := findFrom_lt_length hf
    apply Prod.Lex.right
    omega
  · have h1 := findFrom_ge hf
    have h2 := findFrom_lt_length hf
    have h3 := check_sgr_osc_bounds hc
    apply Prod.Lex.left
    rw [List.length_append, List.length_take, List.length_drop]
    omega

def trim_sgr_osc (data : List Nat) (assertIs : Bool) : Except TrimErr (List Nat) :=
  trimLoop data assertIs 0

theorem findFrom_eq_none {l : List Nat} {b s : Nat}
    (h : ∀ k, s ≤ k → l[k]? ≠ some b) : findFrom l b s = none := by
  cases hf : findFrom l b s with
  | none => rfl
  | some j => exact absurd (findFrom_getElem hf) (h j (findFrom_ge hf))

theorem findFrom_take {d : List Nat} {b s ind i : Nat}
    (hf : findFrom d b s = some ind) (hlt : ind < i) :
    findFrom (d.take i) b s = some ind := by
  cases hf' : findFrom (d.take i) b s with
  | none =>
    have hx := findFrom_none hf' ind (findFrom_ge hf)
    rw [getElem?_take_of_lt hlt] at hx
    exact absurd (findFrom_getElem hf) hx
  | some j =>
    have hjs := findFrom_ge hf'
    have hjget := findFrom_getElem hf'
    have hjlen := findFrom_lt_length hf'
    have hjlt : j < i := by
      rw [List.length_take] at hjlen
      omega
    rw [getElem?_take_of_lt hjlt] at hjget
    rcases Nat.lt_trichotomy j ind with hlt2 | heq | hgt
    · exact absurd hjget (findFrom_min hf j hjs hlt2)
    · rw [heq]
    · have hx := findFrom_min hf' ind (findFrom_ge hf) hgt
      rw [getElem?_take_of_lt hlt] at hx
      exact absurd (findFrom_getElem hf) hx

/-- Truncating at the ESC where `IndexError` struck leaves a buffer whose
scan is clean: every earlier ESC was recognized. -/
theorem escScan_cut_take {d : List Nat} {s i : Nat} (h : escScan d s = .cut i) :
    escScan (d.take i) s = .clean := by
  induction s using escScan.induct d with
  | case1 s hf =>
    rw [escScan, hf] at h
    simp at h
  | case2 s ind hf a hc =>
    rw [escScan, hf] at h
    dsimp only at h
    rw [hc] at h
    have hii : ind = i := by injection h
    subst hii
    rw [escScan]
    have hnone : findFrom (d.take ind) 27 s = none := by
      apply findFrom_eq_none
      intro k hk
      by_cases hklt : k < ind
      · rw [getElem?_take_of_lt hklt]
        exact findFrom_min hf k hk hklt
      · rw [List.getElem?_take]
        rw [if_neg hklt]
        simp
    rw [hnone]
  | case3 s ind hf hc =>
    rw [escScan, hf] at h
    dsimp only at h
    rw [hc] at h
    simp at h
  | case4 s ind hf e hc ih =>
    rw [escScan, hf] at h
    dsimp only at h
    rw [hc] at h
    have hge := escScan_cut_ge h
    have hb := check_sgr_osc_bounds hc
    rw [escScan]
    have hf' : findFrom (d.take i) 27 s = some ind :=
      findFrom_take hf (by omega)
    rw [hf']
    dsimp only
    have hc' : check_sgr_osc (d.take i) ind = .ok (some e) :=
      check_sgr_osc_take hc (by omega)
    rw [hc']
    exact ih h

theorem splice_drop {d : List Nat} {ind e : Nat} (hle : ind ≤ e) (hlen : e ≤ d.length) :
    (d.take ind ++ d.drop e).drop ind = d.drop e := by
  have hlen' : (d.take ind).length = ind := by
    rw [List.length_take]; omega
  nth_rewrite 1 [← hlen']
  exact List.drop_left _ _

theorem splice_take {d : List Nat} {ind e : Nat} (hlen : ind ≤ d.length) :
    (d.take ind ++ d.drop e).take ind = d.take ind := by
  have hlen' : (d.take ind).length = ind := by
    rw [List.length_take]; omega
  nth_rewrite 1 [← hlen']
  exact List.take_left _ _

/-- Splicing a recognized run out of a clean buffer keeps the scan clean. -/
theorem escScan_splice_clean {d : List Nat} {ind e : Nat}
    (h : escScan d e = .clean) (hle : ind ≤ e) (hlen : e ≤ d.length) :
    escScan (d.take ind ++ d.drop e) ind = .clean := by
  have h1 := escScan_shift d e 0
  have h2 := escScan_shift (d.take ind ++ d.drop e) ind 0
  rw [Nat.add_zero] at h1 h2
  rw [splice_drop hle hlen] at h2
  rw [h] at h1
  cases hscan : escScan (d.drop e) 0 with
  | clean => rw [hscan] at h2; exact h2
  | cut k => rw [hscan] at h1; simp at h1
  | switch => rw [hscan] at h1; simp at h1

theorem trimLoop_length : ∀ (d : List Nat) (a : Bool) (s : Nat),
    ∀ r, trimLoop d a s = .ok r → r.length ≤ d.length := by
  intro d a s
  induction d, a, s using trimLoop.induct with
  | case1 d a s hf =>
    intro r h
    rw [trimLoop, hf] at h
    cases h
    exact Nat.le_refl _
  | case2 d a s ind hf u hc =>
    intro r h
    rw [trimLoop, hf] at h
    dsimp only at h
    rw [hc] at h
    exact absurd h (by simp)
  | case3 d s ind hf hc =>
    intro r h
    rw [trimLoop, hf] at h
    dsimp only at h
    rw [hc] at h
    simp at h
  | case4 d a s ind hf hc hna ih =>
    intro r h
    rw [trimLoop, hf] at h
    dsimp only at h
    rw [hc, if_neg hna] at h
    exact ih r h
  | case5 d a s ind hf e hc ih =>
    intro r h
    rw [trimLoop, hf] at h
    dsimp only at h
    rw [hc] at h
    have hb := check_sgr_osc_bounds hc
    have := ih r h
    rw [List.length_append, List.length_take, List.length_drop] at this
    omega

theorem trimLoop_mem : ∀ (d : List Nat) (a : Bool) (s : Nat),
    ∀ r, trimLoop d a s = .ok r → ∀ x, x ∈ r → x ∈ d := by
  intro d a s
  induction d, a, s using trimLoop.induct with
  | case1 d a s hf =>
    intro r h
    rw [trimLoop, hf] at h
    cases h
    intro x hx
    exact hx
  | case2 d a s ind hf u hc =>
    intro r h
    rw [trimLoop, hf] at h
    dsimp only at h
    rw [hc] at h
    exact absurd h (by simp)
  | case3 d s ind hf hc =>
    intro r h
    rw [trimLoop, hf] at h
    dsimp only at h
    rw [hc] at h
    simp at h
  | case4 d a s ind hf hc hna ih =>
    intro r h
    rw [trimLoop, hf] at h
    dsimp only at h
    rw [hc, if_neg hna] at h
    exact ih r h
  | case5 d a s ind hf e hc ih =>
    intro r h
    rw [trimLoop, hf] at h
    dsimp only at h
    rw [hc] at h
    intro x hx
    have hmem := ih r h x hx
    rcases List.mem_append.mp hmem with hm | hm
    · exact List.mem_of_mem_take hm
    · exact List.mem_of_mem_drop hm

/-- On a buffer whose escape scan is clean, strict-mode `trim_sgr_osc`
succeeds; the result is no longer than the input, agrees with it before the
scan start, and has no ESC byte at or past the scan start. -/
theorem trimLoop_of_clean : ∀ (d : List Nat) (a : Bool) (s : Nat),
    a = true → escScan d s = .clean →
    ∃ r, trimLoop d true s = .ok r ∧ r.length ≤ d.length ∧
      r.take s = d.take s ∧ (∀ j, s ≤ j → r[j]? ≠ some 27) := by
  intro d a s
  induction d, a, s using trimLoop.induct with
  | case1 d a s hf =>
    intro _ _
    refine ⟨d, ?_, Nat.le_refl _, rfl, ?_⟩
    · rw [trimLoop, hf]
    · intro j hj
      exact findFrom_none hf j hj
  | case2 d a s ind hf u hc =>
    intro _ hscan
    rw [escScan, hf] at hscan
    dsimp only at hscan
    rw [hc] at hscan
    exact absurd hscan (by simp)
  | case3 d s ind hf hc =>
    intro _ hscan
    rw [escScan, hf] at hscan
    dsimp only at hscan
    rw [hc] at hscan
    exact absurd hscan (by simp)
  | case4 d a s ind hf hc hna ih =>
    intro ha
    exact absurd ha hna
  | case5 d a s ind hf e hc ih =>
    intro ha hscan
    rw [escScan, hf] at hscan
    dsimp only at hscan
    rw [hc] at hscan
    have hb := check_sgr_osc_bounds hc
    have hs_ind : s ≤ ind := findFrom_ge hf
    have hsplice : escScan (d.take ind ++ d.drop e) ind = .clean :=
      escScan_splice_clean hscan (by omega) (by omega)
    obtain ⟨r, hrt, hrlen, hrtake, hr27⟩ := ih ha hsplice
    have htake_eq : r.take ind = d.take ind := by
      rw [hrtake]
      exact splice_take (by omega)
    refine ⟨r, ?_, ?_, ?_, ?_⟩
    · rw [trimLoop, hf]
      dsimp only
      rw [hc]
      exact hrt
    · rw [List.length_append, List.length_take, List.length_drop] at hrlen
      omega
    · calc r.take s = (r.take ind).take s := by
            rw [List.take_take]
            congr 1
            omega
        _ = (d.take ind).take s := by rw [htake_eq]
        _ = d.take s := by
            rw [List.take_take]
            congr 1
            omega
    · intro j hj
      by_cases hjind : j < ind
      · have h1 : (r.take ind)[j]? = r[j]? := getElem?_take_of_lt hjind
        have h2 : (d.take ind)[j]? = d[j]? := getElem?_take_of_lt hjind
        rw [← h1, htake_eq, h2]
        exact findFrom_min hf j hj hjind
      · exact hr27 j (by omega)

/-! ## CR/LF normalization (comm.py lines 512-513)

`while b'\r\n' in data: data = data.replace(b'\r\n', b'\n')`.
`replaceCRLF1` is one `bytes.replace` pass (non-overlapping, left to right);
`replaceCRLF` iterates it while an occurrence remains, exactly as the
`while` loop does. -/

def replaceCRLF1 : List Nat → List Nat
  | [] => []
  | [b] => [b]
  | b :: b2 :: rest =>
    if b = 13 ∧ b2 = 10 then 10 :: replaceCRLF1 rest
    else b :: replaceCRLF1 (b2 :: rest)

def hasCRLF : List Nat → Bool
  | [] => false
  | [_] => false
  | b :: b2 :: rest => if b = 13 ∧ b2 = 10 then true else hasCRLF (b2 :: rest)

theorem replaceCRLF1_length_le (l : List Nat) :
    (replaceCRLF1 l).length ≤ l.length := by
  induction l using replaceCRLF1.induct with
  | case1 => simp [replaceCRLF1]
  | case2 b => simp [replaceCRLF1]
  | case3 b b2 rest hc ih =>
    rw [replaceCRLF1, if_pos hc]
    simp only [List.length_cons]
    omega
  | case4 b b2 rest hc ih =>
    rw [replaceCRLF1, if_neg hc]
    simp only [List.length_cons] at ih ⊢
    omega

theorem replaceCRLF1_length_lt {l : List Nat} (h : hasCRLF l = true) :
    (replaceCRLF1 l).length < l.length := by
  induction l using replaceCRLF1.induct with
  | case1 => simp [hasCRLF] at h
  | case2 b => simp [hasCRLF] at h
  | case3 b b2 rest hc ih =>
    rw [replaceCRLF1, if_pos hc]
    have := replaceCRLF1_length_le rest
    simp only [List.length_cons]
    omega
  | case4 b b2 rest hc ih =>
    rw [hasCRLF, if_neg hc] at h
    rw [replaceCRLF1, if_neg hc]
    have := ih h
    simp only [List.length_cons] at this ⊢
    omega

theorem replaceCRLF1_mem {l : List Nat} {x : Nat} (h : x ∈ replaceCRLF1 l) :
    x ∈ l ∨ x = 10 := by
  induction l using replaceCRLF1.induct with
  | case1 => simp [replaceCRLF1] at h
  | case2 b => simp [replaceCRLF1] at h; simp [h]
  | case3 b b2 rest hc ih =>
    rw [replaceCRLF1, if_pos hc] at h
    rcases List.mem_cons.mp h with h10 | hrest
    · right; exact h10
    · rcases ih hrest with hm | h10
      · left; exact List.mem_cons_of_mem _ (List.mem_cons_of_mem _ hm)
      · right; exact h10
  | case4 b b2 rest hc ih =>
    rw [replaceCRLF1, if_neg hc] at h
    rcases List.mem_cons.mp h with hb | hrest
    · left; rw [hb]; exact List.mem_cons_self _ _
    · rcases ih hrest with hm | h10
      · left; exact List.mem_cons_of_mem _ hm
      · right; exact h10

/-- The `while b'\r\n' in data` loop. -/
def replaceCRLF (l : List Nat) : List Nat :=
  if h : hasCRLF l = true then replaceCRLF (replaceCRLF1 l) else l
termination_by l.length
decreasing_by
  exact replaceCRLF1_length_lt h

theorem replaceCRLF_length_le (l : List Nat) :
    (replaceCRLF l).length ≤ l.length := by
  induction l using replaceCRLF.induct with
  | case1 l hc ih =>
    rw [replaceCRLF, dif_pos hc]
    have := replaceCRLF1_length_le l
    omega
  | case2 l hc =>
    rw [replaceCRLF, dif_neg hc]

theorem replaceCRLF_mem {l : List Nat} {x : Nat} (h : x ∈ replaceCRLF l) :
    x ∈ l ∨ x = 10 := by
  induction l using replaceCRLF.induct with
  | case1 l hc ih =>
    rw [replaceCRLF, dif_pos hc] at h
    rcases ih h with hm | h10
    · exact replaceCRLF1_mem hm
    · right; exact h10
  | case2 l hc =>
    rw [replaceCRLF, dif_neg hc] at h
    left; exact h

/-! ## Data model: session modes, flush types, messages, screen -/

/-- `TermState` from comm.py (lines 238-243). -/
inductive TermState where
  | BAD : TermState
  | IN_PROMPT : TermState
  | IN_EXEC_DIRECT : TermState
  | IN_EXEC_TERMEMU : TermState
deriving DecidableEq, Repr

/-- `FlushType` from comm.py (lines 245-248). -/
inductive FlushType where
  | IF_NECESSARY : FlushType
  | HIT_TIMER : FlushType
  | FORCED : FlushType
deriving DecidableEq, Repr

/-- `osaibot_response` from comm.py (lines 232-235). -/
inductive osaibot_response where
  | RESP_PROMPT : osaibot_response
  | RESP_BEGIN : osaibot_response
deriving DecidableEq, Repr

/-- The `pyte.Screen(80, 24)` state that `handle_ptm` reads: the cursor
coordinates and `screen.display` (the rendered rows).  The emulation itself
(`pyte`) is an external collaborator; `handle_ptm` proofs take the feed
function as a parameter. -/
structure Screen where
  x : Nat
  y : Nat
  display : List (List Char)
deriving DecidableEq, Repr

/-- An outbound message passed to `bot_response`.  `direct` and `prompt`
carry the payload bytes just before `.decode(errors='replace')`; `display`
carries the rendered snapshot text. -/
inductive Msg where
  | direct : List Nat → Msg
  | display : List Char → Msg
  | prompt : List Nat → Msg
deriving DecidableEq, Repr

/-- The per-session state that `handle_ptm` touches. -/
structure CommSt where
  term_state : TermState
  pending_out : List Nat
  te_screen : Option Screen
  has_flush_wait : Bool
deriving DecidableEq, Repr

/-- Python `str.rstrip()` (whitespace set restricted to the ASCII whitespace
characters, which is what `pyte` rows can contain). -/
def isPySpace (c : Char) : Bool :=
  c = ' ' ∨ c = '\t' ∨ c = '\n' ∨ c = '\r' ∨ c = '\x0b' ∨ c = '\x0c'

def pyRstrip (l : List Char) : List Char :=
  (l.reverse.dropWhile isPySpace).reverse

/-- The row loop of the `DISPLAY` rendering (comm.py lines 571-575):
`'-'` marks the cursor row, `' '` the others, each row right-stripped and
newline-terminated. -/
def renderRows (cy : Nat) : Nat → List (List Char) → List Char
  | _, [] => []
  | i, line :: rest =>
    ((if cy = i then '-' else ' ') :: pyRstrip line) ++ '\n' :: renderRows cy (i + 1) rest

/-- The `DISPLAY` payload (comm.py lines 568-575): a header of
`cursor.x + 1` spaces followed by `'|'`, then the marked rows. -/
def render_display (scr : Screen) : List Char :=
  List.replicate (scr.x + 1) ' ' ++ '|' :: '\n' :: renderRows scr.y 0 scr.display

/-! ## The flush step of `handle_ptm` in EXEC_DIRECT (comm.py lines 505-565) -/

/-- The "split at the last linebreak" step (comm.py lines 541-547), applied
whenever `flushtype != FORCED`: if the buffer has a `\n` that is not its
last byte, flush only up to it and push the tail back, setting
`flush_wait`. -/
def lineSplit (ft : FlushType) (dA pA : List Nat) (fw : Bool) :
    List Nat × List Nat × Bool :=
  if ft ≠ FlushType.FORCED then
    match rfindByte 10 dA with
    | some nr =>
      if nr ≠ dA.length - 1 then (dA.take (nr + 1), dA.drop (nr + 1) ++ pA, true)
      else (dA, pA, fw)
    | none => (dA, pA, fw)
  else (dA, pA, fw)

/-- Result of one EXEC_DIRECT flush iteration: `done` = the Python loop
`break`s, `again` = `has_pending_from_limit` causes another iteration. -/
inductive DirectStep where
  | done : List Nat → Bool → List Msg → DirectStep
  | again : List Nat → Bool → List Msg → DirectStep
deriving DecidableEq, Repr

/-- Lines 505-565 after the promotion scan: trim SGR/OSC (strict), the dead
trailing-CR loop, CRLF normalization, the 2000-byte cap, the linebreak
split, and the flush/hold decision.

comm.py line 508, `while data and data[-1] == b'\r'`, compares the `int`
`data[-1]` with the `bytes` object `b'\r'`; in Python 3 `int == bytes` is
always `False`, so that loop body never runs and no byte is moved.  It is
therefore modelled as a no-op between `trim_sgr_osc` and `replaceCRLF`. -/
def directFlush (ft : FlushType) (d1 p0 : List Nat) (fw : Bool) :
    Except TrimErr DirectStep :=
  match trim_sgr_osc d1 true with
  | .error err => .error err
  | .ok d2 =>
    let d3 := replaceCRLF d2
    if d3 = [] then .ok (.done p0 fw [])
    else
      if 2000 < d3.length then
        match lineSplit ft (d3.take 2000) (d3.drop 2000 ++ p0) fw with
        | (dB, pB, fw') => .ok (.again pB fw' [Msg.direct dB])
      else
        match lineSplit ft d3 p0 fw with
        | (dB, pB, fw') =>
          if ft ≠ FlushType.IF_NECESSARY then .ok (.done pB fw' [Msg.direct dB])
          else .ok (.done (dB ++ pB) true [])

theorem rfindByte_lt {b : Nat} {l : List Nat} {j : Nat}
    (h : rfindByte b l = some j) : j < l.length := by
  induction l generalizing j with
  | nil => simp [rfindByte] at h
  | cons x xs ih =>
    rw [rfindByte] at h
    cases hr : rfindByte b xs with
    | some j' =>
      rw [hr] at h
      cases h
      have := ih hr
      simp
      omega
    | none =>
      rw [hr] at h
      by_cases hx : x = b
      · rw [if_pos hx] at h
        cases h
        simp
      · rw [if_neg hx] at h
        exact absurd h (by simp)

/-- Whatever `lineSplit` does, the flushed part and the new pending split the
buffer: there is an `n ≥ 1` (when the buffer is nonempty) with
`dB = dA.take n` and `pB = dA.drop n ++ pA`. -/
theorem lineSplit_spec (ft : FlushType) (dA pA : List Nat) (fw : Bool)
    (hne : dA ≠ []) :
    ∃ n fw', lineSplit ft dA pA fw = (dA.take n, dA.drop n ++ pA, fw') ∧
      1 ≤ n := by
  unfold lineSplit
  by_cases hft : ft ≠ FlushType.FORCED
  · rw [if_pos hft]
    cases hr : rfindByte 10 dA with
    | some nr =>
      dsimp only
      by_cases hlast : nr ≠ dA.length - 1
      · rw [if_pos hlast]
        exact ⟨nr + 1, true, rfl, by omega⟩
      · rw [if_neg hlast]
        refine ⟨dA.length, fw, ?_, ?_⟩
        · rw [List.take_length, List.drop_length]
          rfl
        · cases dA with
          | nil => exact absurd rfl hne
          | cons => simp
    | none =>
      dsimp only
      refine ⟨dA.length, fw, ?_, ?_⟩
      · rw [List.take_length, List.drop_length]
        rfl
      · cases dA with
        | nil => exact absurd rfl hne
        | cons => simp
  · rw [if_neg hft]
    refine ⟨dA.length, fw, ?_, ?_⟩
    · rw [List.take_length, List.drop_length]
      rfl
    · cases dA with
      | nil => exact absurd rfl hne
      | cons => simp

/-- Under `FORCED` the linebreak split is skipped entirely. -/
theorem lineSplit_forced (dA pA : List Nat) (fw : Bool) :
    lineSplit FlushType.FORCED dA pA fw = (dA, pA, fw) := by
  unfold lineSplit
  simp

/-- The `again` continuation strictly shrinks the working buffer: this is
what makes the `while True` loop of `handle_ptm` terminate. -/
theorem directFlush_again_length {ft : FlushType} {d1 p0 : List Nat} {fw : Bool}
    {p : List Nat} {f : Bool} {m : List Msg}
    (h : directFlush ft d1 p0 fw = .ok (.again p f m)) :
    p.length < d1.length + p0.length := by
  unfold directFlush at h
  cases htrim : trim_sgr_osc d1 true with
  | error err => rw [htrim] at h; exact absurd h (by simp)
  | ok d2 =>
    rw [htrim] at h
    have hd2 : d2.length ≤ d1.length := trimLoop_length d1 true 0 d2 htrim
    have hd3 : (replaceCRLF d2).length ≤ d2.length := replaceCRLF_length_le d2
    dsimp only at h
    by_cases hemp : replaceCRLF d2 = []
    · rw [if_pos hemp] at h
      exact absurd h (by simp)
    · rw [if_neg hemp] at h
      by_cases hover : 2000 < (replaceCRLF d2).length
      · rw [if_pos hover] at h
        have htake_ne : (replaceCRLF d2).take 2000 ≠ [] := by
          have : ((replaceCRLF d2).take 2000).length = 2000 := by
            rw [List.length_take]
            omega
          intro hx
          rw [hx] at this
          simp at this
        obtain ⟨n, fw', hsplit, hn⟩ :=
          lineSplit_spec ft ((replaceCRLF d2).take 2000)
            ((replaceCRLF d2).drop 2000 ++ p0) fw htake_ne
        rw [hsplit] at h
        have hp : p = ((replaceCRLF d2).take 2000).drop n ++
            ((replaceCRLF d2).drop 2000 ++ p0) := by
          cases h
          rfl
        rw [hp]
        simp only [List.length_append, List.length_drop, List.length_take]
        omega
      · rw [if_neg hover] at h
        cases hls : lineSplit ft (replaceCRLF d2) p0 fw with
        | mk dB rest =>
          rw [hls] at h
          by_cases hft : ft ≠ FlushType.IF_NECESSARY
          · rw [if_pos hft] at h
            exact absurd h (by simp)
          · rw [if_neg hft] at h
            exact absurd h (by simp)

/-! ## `handle_ptm` (comm.py lines 452-589) -/

/-- Measure helper: `IN_EXEC_DIRECT` can switch to `IN_EXEC_TERMEMU` once;
every other mode leaves the `while True` loop in one iteration. -/
def stateRank : TermState → Nat
  | .IN_EXEC_DIRECT => 1
  | _ => 0

/-- The `while True` loop of `handle_ptm`.  Loop entry merges the pending
buffer (`data, self.pending_out = self.pending_out + data, b''`);
`fw` is the local `flush_wait`.  Returns `none` when the Python code would
raise (an `AssertionError`/`IndexError` out of strict `trim_sgr_osc`, or an
`AttributeError` reading the cursor of a `None` screen). -/
def ptmLoop (ft : FlushType) (st : CommSt) (data : List Nat) (fw : Bool) :
    Option (CommSt × Bool × List Msg) :=
  match hts : st.term_state with
  | .IN_EXEC_DIRECT =>
    if 8 ∈ st.pending_out ++ data ∨ 127 ∈ st.pending_out ++ data then
      -- erase character seen: discard the buffer, switch, continue
      ptmLoop ft { st with term_state := .IN_EXEC_TERMEMU, pending_out := [] } [] fw
    else
      match hs : escScan (st.pending_out ++ data) 0 with
      | .switch =>
        -- a decided non-SGR/OSC escape: discard the buffer, switch, continue
        ptmLoop ft { st with term_state := .IN_EXEC_TERMEMU, pending_out := [] } [] fw
      | .cut i =>
        -- undecidable tail: truncate at the ESC, carry the tail into pending
        match hdf : directFlush ft ((st.pending_out ++ data).take i)
            ((st.pending_out ++ data).drop i) fw with
        | .error _ => none
        | .ok (.done p fw' msgs) =>
          some ({ st with pending_out := p }, fw', msgs)
        | .ok (.again p fw' msgs) =>
          match ptmLoop ft { st with pending_out := p } [] fw' with
          | none => none
          | some (st', fw'', msgs') => some (st', fw'', msgs ++ msgs')
      | .clean =>
        match hdf : directFlush ft (st.pending_out ++ data) [] fw with
        | .error _ => none
        | .ok (.done p fw' msgs) =>
          some ({ st with pending_out := p }, fw', msgs)
        | .ok (.again p fw' msgs) =>
          match ptmLoop ft { st with pending_out := p } [] fw' with
          | none => none
          | some (st', fw'', msgs') => some (st', fw'', msgs ++ msgs')
  | .IN_EXEC_TERMEMU =>
    if ft ≠ FlushType.IF_NECESSARY then
      match st.te_screen with
      | none => none
      | some scr =>
        some ({ st with pending_out := [] }, fw, [Msg.display (render_display scr)])
    else
      some ({ st with pending_out := [] }, true, [])
  | .BAD => some ({ st with pending_out := [] }, fw, [])
  | .IN_PROMPT => some ({ st with pending_out := [] }, fw, [])
termination_by (stateRank st.term_state, (st.pending_out ++ data).length)
decreasing_by
  · apply Prod.Lex.left
    rw [hts]
    simp [stateRank]
  · apply Prod.Lex.left
    rw [hts]
    simp [stateRank]
  · have hlt := directFlush_again_length hdf
    rw [hts]
    apply Prod.Lex.right
    simp only [List.length_append, List.length_take, List.length_drop,
      List.length_nil, List.append_nil] at hlt ⊢
    omega
  · have hlt := directFlush_again_length hdf
    rw [hts]
    apply Prod.Lex.right
    simp only [List.length_append, List.length_drop, List.length_nil,
      List.append_nil] at hlt ⊢
    omega

/-- `handle_ptm(data, flushtype)` (comm.py lines 452-589).  `feed` is the
external `pyte` emulation (`self.te_stream.feed`), applied exactly when the
NUL-stripped data is nonempty and a screen exists; the final assignment
`self.has_flush_wait = flush_wait` is the `has_flush_wait` update. -/
def handle_ptm (feed : Screen → List Nat → Screen) (st : CommSt)
    (data0 : List Nat) (ft : FlushType) : Option (CommSt × List Msg) :=
  let data := data0.filter (fun b => decide (b ≠ 0))
  let st1 :=
    if data ≠ [] ∧ st.te_screen.isSome then
      { st with te_screen := st.te_screen.map (fun scr => feed scr data) }
    else st
  match ptmLoop ft st1 data false with
  | none => none
  | some (st', fw, msgs) => some ({ st' with has_flush_wait := fw }, msgs)

/-! ## `handle_ptm(b'', FORCED)`: the drain performed on `RESP_PROMPT` -/

/-- Under `FORCED`, a clean-scanned buffer flushes without error and never
sets `flush_wait`: the linebreak split is skipped and `should_flush` is
true whenever there is data. -/
theorem directFlush_forced_ok {d1 : List Nat} (p0 : List Nat) (fw : Bool)
    (hclean : escScan d1 0 = .clean) :
    (∃ p msgs, directFlush FlushType.FORCED d1 p0 fw = .ok (.done p fw msgs)) ∨
    (∃ p msgs, directFlush FlushType.FORCED d1 p0 fw = .ok (.again p fw msgs)) := by
  obtain ⟨r, hr, _, _, _⟩ := trimLoop_of_clean d1 true 0 rfl hclean
  have hr' : trim_sgr_osc d1 true = .ok r := hr
  unfold directFlush
  rw [hr']
  dsimp only
  by_cases hemp : replaceCRLF r = []
  · rw [if_pos hemp]
    left
    exact ⟨p0, [], rfl⟩
  · rw [if_neg hemp]
    by_cases hover : 2000 < (replaceCRLF r).length
    · rw [if_pos hover, lineSplit_forced]
      right
      exact ⟨_, _, rfl⟩
    · rw [if_neg hover, lineSplit_forced]
      dsimp only
      rw [if_pos (by simp)]
      left
      exact ⟨_, _, rfl⟩

/-- Core of claim C4: in an execution mode with a live screen, the forced
drain always completes (no assertion/index error escapes) and returns the
`flush_wait` flag it was entered with — under `FORCED` nothing can set it. -/
theorem ptmLoop_forced_ok : ∀ (st : CommSt) (data : List Nat) (fw : Bool),
    st.te_screen.isSome = true →
    (st.term_state = TermState.IN_EXEC_DIRECT ∨
      st.term_state = TermState.IN_EXEC_TERMEMU) →
    ∃ st' msgs, ptmLoop FlushType.FORCED st data fw = some (st', fw, msgs) := by
  intro st data fw
  induction st, data, fw using ptmLoop.induct FlushType.FORCED with
  | case1 st data fw hts hcont ih =>
    intro hscr _
    obtain ⟨st', msgs, heq⟩ := ih hscr (Or.inr rfl)
    refine ⟨st', msgs, ?_⟩
    rw [ptmLoop, hts]
    dsimp only
    rw [if_pos hcont]
    exact heq
  | case2 st data fw hts hcont hs ih =>
    intro hscr _
    obtain ⟨st', msgs, heq⟩ := ih hscr (Or.inr rfl)
    refine ⟨st', msgs, ?_⟩
    rw [ptmLoop, hts]
    dsimp only
    rw [if_neg hcont, hs]
    dsimp only
    exact heq
  | case3 st data fw hts hcont i hs a hdf =>
    intro _ _
    have hclean := escScan_cut_take hs
    rcases directFlush_forced_ok ((st.pending_out ++ data).drop i) fw hclean with
      ⟨p, msgs, hok⟩ | ⟨p, msgs, hok⟩ <;>
      rw [hdf] at hok <;> exact absurd hok (by simp)
  | case4 st data fw hts hcont i hs p fw' msgs hdf =>
    intro _ _
    have hclean := escScan_cut_take hs
    have hfw : fw' = fw := by
      rcases directFlush_forced_ok ((st.pending_out ++ data).drop i) fw hclean with
        ⟨p2, msgs2, hok⟩ | ⟨p2, msgs2, hok⟩ <;> rw [hdf] at hok
      · cases hok; rfl
      · exact absurd hok (by simp)
    subst hfw
    refine ⟨{ st with pending_out := p }, msgs, ?_⟩
    rw [ptmLoop, hts]
    dsimp only
    rw [if_neg hcont, hs]
    dsimp only
    rw [hdf]
  | case5 st data fw hts hcont i hs p fw' msgs hdf hnone ih =>
    intro hscr _
    obtain ⟨st', msgs', heq⟩ := ih (by simpa using hscr) (Or.inl hts)
    rw [heq] at hnone
    exact absurd hnone (by simp)
  | case6 st data fw hts hcont i hs p fw' msgs hdf st' fw'' msgs' hsome ih =>
    intro hscr _
    have hclean := escScan_cut_take hs
    have hfw : fw' = fw := by
      rcases directFlush_forced_ok ((st.pending_out ++ data).drop i) fw hclean with
        ⟨p2, msgs2, hok⟩ | ⟨p2, msgs2, hok⟩ <;> rw [hdf] at hok
      · exact absurd hok (by simp)
      · cases hok; rfl
    obtain ⟨st2, msgs2, heq⟩ := ih (by simpa using hscr) (Or.inl hts)
    have hsome2 := hsome
    rw [heq] at hsome2
    simp only [Option.some.injEq, Prod.mk.injEq] at hsome2
    obtain ⟨h1, h2, h3⟩ := hsome2
    refine ⟨st', msgs ++ msgs', ?_⟩
    rw [hts] at hsome
    rw [ptmLoop, hts]
    dsimp only
    rw [if_neg hcont, hs]
    dsimp only
    rw [hdf]
    dsimp only
    rw [hsome]
    dsimp only
    rw [← h2, hfw]
  | case7 st data fw hts hcont hs a hdf =>
    intro _ _
    rcases directFlush_forced_ok [] fw hs with
      ⟨p, msgs, hok⟩ | ⟨p, msgs, hok⟩ <;>
      rw [hdf] at hok <;> exact absurd hok (by simp)
  | case8 st data fw hts hcont hs p fw' msgs hdf =>
    intro _ _
    have hfw : fw' = fw := by
      rcases directFlush_forced_ok [] fw hs with
        ⟨p2, msgs2, hok⟩ | ⟨p2, msgs2, hok⟩ <;> rw [hdf] at hok
      · cases hok; rfl
      · exact absurd hok (by simp)
    subst hfw
    refine ⟨{ st with pending_out := p }, msgs, ?_⟩
    rw [ptmLoop, hts]
    dsimp only
    rw [if_neg hcont, hs]
    dsimp only
    rw [hdf]
  | case9 st data fw hts hcont hs p fw' msgs hdf hnone ih =>
    intro hscr _
    obtain ⟨st', msgs', heq⟩ := ih (by simpa using hscr) (Or.inl hts)
    rw [heq] at hnone
    exact absurd hnone (by simp)
  | case10 st data fw hts hcont hs p fw' msgs hdf st' fw'' msgs' hsome ih =>
    intro hscr _
    have hfw : fw' = fw := by
      rcases directFlush_forced_ok [] fw hs with
        ⟨p2, msgs2, hok⟩ | ⟨p2, msgs2, hok⟩ <;> rw [hdf] at hok
      · exact absurd hok (by simp)
      · cases hok; rfl
    obtain ⟨st2, msgs2, heq⟩ := ih (by simpa using hscr) (Or.inl hts)
    have hsome2 := hsome
    rw [heq] at hsome2
    simp only [Option.some.injEq, Prod.mk.injEq] at hsome2
    obtain ⟨h1, h2, h3⟩ := hsome2
    refine ⟨st', msgs ++ msgs', ?_⟩
    rw [hts] at hsome
    rw [ptmLoop, hts]
    dsimp only
    rw [if_neg hcont, hs]
    dsimp only
    rw [hdf]
    dsimp only
    rw [hsome]
    dsimp only
    rw [← h2, hfw]
  | case11 st data fw hts hft hscrn =>
    intro hscr _
    rw [hscrn] at hscr
    simp at hscr
  | case12 st data fw hts hft scr hscrn =>
    intro _ _
    refine ⟨{ st with pending_out := [] },
      [Msg.display (render_display scr)], ?_⟩
    rw [ptmLoop, hts]
    dsimp only
    rw [if_pos hft, hscrn]
  | case13 st data fw hts hft =>
    intro _ _
    exact absurd (by simp : FlushType.FORCED ≠ FlushType.IF_NECESSARY) hft
  | case14 st data fw hts =>
    intro _ hmode
    rw [hts] at hmode
    rcases hmode with h | h <;> simp at h
  | case15 st data fw hts =>
    intro _ hmode
    rw [hts] at hmode
    rcases hmode with h | h <;> simp at h

/-! ## The prompt clean-up path of `handle_cmd` (comm.py lines 604-625)

The ANSI-stripping regex (from the source, comm.py lines 614-617) has three
alternatives, tried in order at each position: `ESC` followed by a byte in
`0x40..0x5A` or `0x5C..0x5F`; a single byte in `0x80..0x9A` or `0x9C..0x9F`;
and a CSI form (`ESC [` or `0x9B`, then parameter bytes `0x30..0x3F`, then
intermediate bytes `0x20..0x2F`, then one final byte `0x40..0x7E`).
`re.sub` scans left to right; the three character classes of the CSI form
are pairwise disjoint, so the greedy stars need no backtracking. -/

def isC1Esc (b : Nat) : Bool := (64 ≤ b ∧ b ≤ 90) ∨ (92 ≤ b ∧ b ≤ 95)
def isC1Byte (b : Nat) : Bool := (128 ≤ b ∧ b ≤ 154) ∨ (156 ≤ b ∧ b ≤ 159)
def isParamByte (b : Nat) : Bool := 48 ≤ b ∧ b ≤ 63
def isInterByte (b : Nat) : Bool := 32 ≤ b ∧ b ≤ 47
def isFinalByte (b : Nat) : Bool := 64 ≤ b ∧ b ≤ 126

/-- The parameter/intermediate/final tail of the CSI alternative, applied
after `ESC [` or `0x9B`; returns the suffix after the match. -/
def csiTailMatch (l : List Nat) : Option (List Nat) :=
  match (l.dropWhile isParamByte).dropWhile isInterByte with
  | b :: rest => if isFinalByte b then some rest else none
  | [] => none

/-- One attempted regex match at the head of `l`; `some rest` = matched,
consuming everything before `rest`. -/
def ansiMatch (l : List Nat) : Option (List Nat) :=
  match l with
  | [] => none
  | b :: rest =>
    if b = 27 then
      match rest with
      | b2 :: rest2 =>
        if isC1Esc b2 then some rest2
        else if b2 = 91 then csiTailMatch rest2
        else none
      | [] => none
    else if b = 155 then csiTailMatch rest
    else if isC1Byte b then some rest
    else none

theorem csiTailMatch_length {l r : List Nat} (h : csiTailMatch l = some r) :
    r.length < l.length := by
  unfold csiTailMatch at h
  have h1 : (l.dropWhile isParamByte).length ≤ l.length :=
    (List.dropWhile_sublist isParamByte).length_le
  have h2 : ((l.dropWhile isParamByte).dropWhile isInterByte).length ≤
      (l.dropWhile isParamByte).length :=
    (List.dropWhile_sublist isInterByte).length_le
  cases hd : (l.dropWhile isParamByte).dropWhile isInterByte with
  | nil => rw [hd] at h; exact absurd h (by simp)
  | cons b rest =>
    rw [hd] at h
    dsimp only at h
    by_cases hf : isFinalByte b = true
    · rw [if_pos hf] at h
      cases h
      rw [hd] at h2
      simp at h2
      omega
    · rw [if_neg hf] at h
      exact absurd h (by simp)

theorem ansiMatch_length {l r : List Nat} (h : ansiMatch l = some r) :
    r.length < l.length := by
  cases l with
  | nil => simp [ansiMatch] at h
  | cons b rest =>
    unfold ansiMatch at h
    dsimp only at h
    by_cases h27 : b = 27
    · rw [if_pos h27] at h
      cases rest with
      | nil => exact absurd h (by simp)
      | cons b2 rest2 =>
        dsimp only at h
        by_cases hc1 : isC1Esc b2 = true
        · rw [if_pos hc1] at h
          cases h
          simp
          omega
        · rw [if_neg hc1] at h
          by_cases h91 : b2 = 91
          · rw [if_pos h91] at h
            have := csiTailMatch_length h
            simp at this ⊢
            omega
          · rw [if_neg h91] at h
            exact absurd h (by simp)
    · rw [if_neg h27] at h
      by_cases h155 : b = 155
      · rw [if_pos h155] at h
        have := csiTailMatch_length h
        simp
        omega
      · rw [if_neg h155] at h
        by_cases hc1 : isC1Byte b = true
        · rw [if_pos hc1] at h
          cases h
          simp
        · rw [if_neg hc1] at h
          exact absurd h (by simp)

/-- `re.sub(pattern, b'', prompt)`: delete every match, scanning left to
right and resuming after each deletion. -/
def reSub (l : List Nat) : List Nat :=
  match l with
  | [] => []
  | b :: rest =>
    match hm : ansiMatch (b :: rest) with
    | some rest' => reSub rest'
    | none => b :: reSub rest
termination_by l.length
decreasing_by
  · have := ansiMatch_length hm
    simpa using this
  · simp

/-- The prompt clean-up of `handle_cmd` for `RESP_PROMPT` (comm.py lines
604-620).  `with contextlib.suppress(IndexError): prompt = trim_sgr_osc(...)`
keeps the original payload when the trim raises.  comm.py line 620 reads
`prompt.translate(None, b'\x1b\r\b\x7f')` — the translated copy is never
assigned, so the surviving `ESC`/CR/BS/DEL bytes are NOT removed: the
function returns the regex-stripped bytes unchanged. -/
def process_prompt (payload : List Nat) : List Nat :=
  let prompt := match trim_sgr_osc payload false with
    | .ok p => p
    | .error _ => payload
  reSub prompt

/-- `pyte.Screen(80, 24)` initial state (external library: cursor at the
origin, 24 blank 80-column rows). -/
def initScreen : Screen :=
  ⟨0, 0, List.replicate 24 (List.replicate 80 ' ')⟩

/-- `handle_cmd(cmd, payload)` (comm.py lines 591-635) restricted to the
state and messages modelled here.  The `assert not self.has_flush_wait`
is `none` on failure; the cancellation of exec-scoped writes and the
`write_process_input` wiring are I/O-only and carry no modelled state. -/
def handle_cmd (feed : Screen → List Nat → Screen) (st : CommSt)
    (cmd : osaibot_response) (payload : List Nat) : Option (CommSt × List Msg) :=
  match cmd with
  | .RESP_PROMPT =>
    match handle_ptm feed st [] FlushType.FORCED with
    | none => none
    | some (st1, msgs1) =>
      if st1.has_flush_wait then none
      else
        some ({ st1 with term_state := TermState.IN_PROMPT },
          msgs1 ++ [Msg.prompt (process_prompt payload)])
  | .RESP_BEGIN =>
    some ({ { st with term_state := TermState.IN_EXEC_DIRECT } with
        te_screen := some initScreen }, [])

/-! ## The cmd/ptm race tiebreaker (comm.py lines 706-719) -/

/-- Which of the two simultaneously-completed reads is deferred
(`drop_task` put back into the wait set); the other is dispatched first. -/
inductive DropChoice where
  | dropPtm : DropChoice
  | dropCmd : DropChoice
deriving DecidableEq, Repr

/-- The tiebreaker applied when both the PTY read and a control packet are
ready in one waiting step (comm.py lines 706-719). -/
def race_tiebreaker (term_state : TermState) (cmd : osaibot_response) : DropChoice :=
  if term_state = TermState.IN_PROMPT ∧ cmd = osaibot_response.RESP_BEGIN then
    DropChoice.dropPtm
  else if cmd = osaibot_response.RESP_PROMPT then
    DropChoice.dropCmd
  else
    DropChoice.dropPtm

/-! ## The FUSE upload file (`DiscordUploaderFile`, comm.py lines 97-138) -/

structure UploadFile where
  data : List Nat
  efbig_hit : Bool
deriving DecidableEq, Repr

/-- `DiscordUploaderFile.read`: always `-errno.EPERM` (= -1). -/
def uf_read (size offset : Nat) : Int := -1

/-- `DiscordUploaderFile.write(buf, offset)`.  `registry` models
`self.uuid in discord_upload_callbacks`; errno values: EIO = 5,
EINVAL = 22, EFBIG = 27. -/
def uf_write (registry : Bool) (f : UploadFile) (buf : List Nat) (offset : Nat) :
    UploadFile × Int :=
  if ¬registry then (f, -5)
  else if offset ≠ f.data.length then (f, -22)
  else if 8 <<< 20 < f.data.length + buf.length then
    ({ f with efbig_hit := true }, -27)
  else
    ({ f with data := f.data ++ buf }, (buf.length : Int))

/-- `DiscordUploaderFile.release`: the upload callback fires (returning the
payload it would deliver) iff data is nonempty, EFBIG never hit, and the
session is still registered. -/
def uf_release (registry : Bool) (f : UploadFile) : Option (List Nat) :=
  if f.data ≠ [] ∧ f.efbig_hit = false ∧ registry then some f.data else none

/-- A sequence of `write` calls against one open file; each entry is
(registry-present, buf, offset), results collected in order. -/
def runWrites (f : UploadFile) : List (Bool × List Nat × Nat) → UploadFile × List Int
  | [] => (f, [])
  | (reg, buf, off) :: ops =>
    let r := uf_write reg f buf off
    let rest := runWrites r.1 ops
    (rest.1, r.2 :: rest.2)

/-! ## `bytes.decode(errors='replace')`

Modelled from the runtime: CPython's incremental UTF-8 decoder with
`errors='replace'` emits one code point per decoded sequence and at least
one U+FFFD per consumed byte run on malformed input; every emitted code
point consumes at least one input byte, which is the only property the
claims need. -/

def utf8Cont (b : Nat) : Bool := 128 ≤ b ∧ b ≤ 191
def utf8Lead2 (b : Nat) : Bool := 194 ≤ b ∧ b ≤ 223
def utf8Lead3 (b : Nat) : Bool := 224 ≤ b ∧ b ≤ 239
def utf8Lead4 (b : Nat) : Bool := 240 ≤ b ∧ b ≤ 244

/-- Constraints on the second byte (the E0/ED/F0/F4 special ranges). -/
def utf8Cont2ok (b b2 : Nat) : Bool :=
  if b = 224 then 160 ≤ b2 ∧ b2 ≤ 191
  else if b = 237 then 128 ≤ b2 ∧ b2 ≤ 159
  else if b = 240 then 144 ≤ b2 ∧ b2 ≤ 191
  else if b = 244 then 128 ≤ b2 ∧ b2 ≤ 143
  else 128 ≤ b2 ∧ b2 ≤ 191

def utf8DecodeReplace : List Nat → List Nat
  | [] => []
  | b :: rest =>
    if b < 128 then b :: utf8DecodeReplace rest
    else if utf8Lead2 b then
      match rest with
      | b2 :: rest2 =>
        if utf8Cont b2 then
          ((b - 192) * 64 + (b2 - 128)) :: utf8DecodeReplace rest2
        else 65533 :: utf8DecodeReplace (b2 :: rest2)
      | [] => [65533]
    else if utf8Lead3 b then
      match rest with
      | b2 :: rest2 =>
        if utf8Cont2ok b b2 then
          match rest2 with
          | b3 :: rest3 =>
            if utf8Cont b3 then
              ((b - 224) * 4096 + (b2 - 128) * 64 + (b3 - 128)) ::
                utf8DecodeReplace rest3
            else 65533 :: utf8DecodeReplace (b3 :: rest3)
          | [] => [65533]
        else 65533 :: utf8DecodeReplace (b2 :: rest2)
      | [] => [65533]
    else if utf8Lead4 b then
      match rest with
      | b2 :: rest2 =>
        if utf8Cont2ok b b2 then
          match rest2 with
          | b3 :: rest3 =>
            if utf8Cont b3 then
              match rest3 with
              | b4 :: rest4 =>
                if utf8Cont b4 then
                  ((b - 240) * 262144 + (b2 - 128) * 4096 + (b3 - 128) * 64 +
                    (b4 - 128)) :: utf8DecodeReplace rest4
                else 65533 :: utf8DecodeReplace (b4 :: rest4)
              | [] => [65533]
            else 65533 :: utf8DecodeReplace (b3 :: rest3)
          | [] => [65533]
        else 65533 :: utf8DecodeReplace (b2 :: rest2)
      | [] => [65533]
    else 65533 :: utf8DecodeReplace rest

/-! ## Spec-side definitions (from the specification's wording)

Used only to state claims C1 and C8 against; everything the program does is
modelled by the definitions above. -/

/-- Spec §8 `remove_nul`: deletes NUL bytes. -/
def remove_nul (B : List Nat) : List Nat := B.filter (fun b => decide (b ≠ 0))

/-- Spec §8 `strip_sgr_osc`: removes recognized SGR/OSC runs.  Stated with
the program's own recognizer (lenient mode; undecidable/unknown tails leave
the input unchanged). -/
def strip_sgr_osc (B : List Nat) : List Nat :=
  match trim_sgr_osc B false with
  | .ok r => r
  | .error _ => B

/-- Drops every trailing CR. -/
def dropTrailingCR (l : List Nat) : List Nat :=
  (l.reverse.dropWhile (fun b => decide (b = 13))).reverse

/-- Spec §8 `normalize`: replaces every CRLF with LF and drops trailing CR. -/
def normalizeBytes (B : List Nat) : List Nat := dropTrailingCR (replaceCRLF B)

/-- Trailing-space trim, as the spec's "right-trimmed of spaces". -/
def trimTrailingSpaces (l : List Char) : List Char :=
  (l.reverse.dropWhile (fun c => decide (c = ' '))).reverse

/-- Joins lines, newline-terminating each. -/
def joinLines (ls : List (List Char)) : List Char :=
  (ls.map (fun l => l ++ ['\n'])).join

/-- Spec §4.3: the 25 lines of a `DISPLAY` payload — a header with `'|'` at
column `cursor.x + 1`, then the 24 rows, each marked `'-'`/`' '` and
right-trimmed. -/
def displayLines (scr : Screen) : List (List Char) :=
  (List.replicate (scr.x + 1) ' ' ++ ['|']) ::
    ((List.range scr.display.length).zip scr.display).map
      (fun p => (if scr.y = p.1 then '-' else ' ') :: trimTrailingSpaces p.2)


theorem utf8DecodeReplace_length_le (l : List Nat) :
    (utf8DecodeReplace l).length ≤ l.length := by
  induction l using utf8DecodeReplace.induct
  all_goals rw [utf8DecodeReplace.eq_def]
  all_goals simp_all
  all_goals try omega
  all_goals (split <;> simp_all <;> try omega)

/-! ## Structure of the flush step's outputs -/

theorem findFrom_append_left {b : Nat} {x : List Nat} (hx : b ∉ x) (t : List Nat) :
    findFrom (x ++ t) b 0 = (findFrom t b 0).map (· + x.length) := by
  induction x with
  | nil =>
    simp only [List.nil_append, List.length_nil]
    cases findFrom t b 0 <;> simp
  | cons y ys ih =>
    have hy : y ≠ b := fun h => hx (h ▸ List.mem_cons_self y ys)
    have hys : b ∉ ys := fun h => hx (List.mem_cons_of_mem _ h)
    show (if y = b then some 0 else (findFrom (ys ++ t) b 0).map (· + 1)) = _
    rw [if_neg hy, ih hys]
    cases findFrom t b 0 with
    | none => simp
    | some j =>
      simp
      omega

theorem not_mem_of_getElem?_ne {l : List Nat} {b : Nat}
    (h : ∀ j, 0 ≤ j → l[j]? ≠ some b) : b ∉ l := by
  intro hmem
  obtain ⟨j, hj, hget⟩ := List.getElem_of_mem hmem
  exact h j (Nat.zero_le _) (by rw [List.getElem?_eq_getElem hj]; simpa using hget)

/-- Everything `directFlush` can put in front of the carried-over pending
`p0` comes from the (trimmed, CRLF-normalized) flush buffer: it is ESC-free
when the input scan was clean, and its bytes are input bytes or `\n`. -/
theorem directFlush_spec_x {ft : FlushType} {d1 p0 : List Nat} {fw : Bool}
    {p : List Nat} {f : Bool} {m : List Msg}
    (hclean : escScan d1 0 = .clean)
    (hres : directFlush ft d1 p0 fw = .ok (.done p f m) ∨
      directFlush ft d1 p0 fw = .ok (.again p f m)) :
    ∃ x, p = x ++ p0 ∧ ∀ y ∈ x, y ≠ 27 ∧ (y ∈ d1 ∨ y = 10) := by
  obtain ⟨r, hr, _, _, h27⟩ := trimLoop_of_clean d1 true 0 rfl hclean
  have hr' : trim_sgr_osc d1 true = .ok r := hr
  have hd3mem : ∀ y ∈ replaceCRLF r, y ≠ 27 ∧ (y ∈ d1 ∨ y = 10) := by
    intro y hy
    have h27r : (27 : Nat) ∉ r :=
      not_mem_of_getElem?_ne (fun j _ => h27 j (Nat.zero_le j))
    rcases replaceCRLF_mem hy with hyr | hy10
    · exact ⟨fun h => h27r (h ▸ hyr), Or.inl (trimLoop_mem d1 true 0 r hr y hyr)⟩
    · exact ⟨by omega, Or.inr hy10⟩
  have hsub : ∀ (a c : Nat) (y : Nat),
      y ∈ ((replaceCRLF r).take a).drop c → y ∈ replaceCRLF r := by
    intro a c y hy
    exact List.mem_of_mem_take (List.mem_of_mem_drop hy)
  unfold directFlush at hres
  rw [hr'] at hres
  dsimp only at hres
  by_cases hemp : replaceCRLF r = []
  · rw [if_pos hemp] at hres
    rcases hres with h | h
    · simp only [Except.ok.injEq, DirectStep.done.injEq] at h
      exact ⟨[], by simp [h.1.symm], by simp⟩
    · exact absurd h (by simp)
  · rw [if_neg hemp] at hres
    by_cases hover : 2000 < (replaceCRLF r).length
    · rw [if_pos hover] at hres
      have htk_ne : (replaceCRLF r).take 2000 ≠ [] := by
        intro hx
        have : ((replaceCRLF r).take 2000).length = 2000 := by
          rw [List.length_take]; omega
        rw [hx] at this
        simp at this
      obtain ⟨n, fw2, hsplit, hn⟩ :=
        lineSplit_spec ft ((replaceCRLF r).take 2000)
          ((replaceCRLF r).drop 2000 ++ p0) fw htk_ne
      rw [hsplit] at hres
      rcases hres with h | h
      · exact absurd h (by simp)
      · simp only [Except.ok.injEq, DirectStep.again.injEq] at h
        refine ⟨((replaceCRLF r).take 2000).drop n ++ (replaceCRLF r).drop 2000,
          ?_, ?_⟩
        · rw [← h.1]
          simp [List.append_assoc]
        · intro y hy
          rcases List.mem_append.mp hy with hy1 | hy2
          · exact hd3mem y (hsub _ _ _ hy1)
          · exact hd3mem y (List.mem_of_mem_drop hy2)
    · rw [if_neg hover] at hres
      obtain ⟨n, fw2, hsplit, hn⟩ :=
        lineSplit_spec ft (replaceCRLF r) p0 fw hemp
      rw [hsplit] at hres
      dsimp only at hres
      by_cases hft : ft ≠ FlushType.IF_NECESSARY
      · rw [if_pos hft] at hres
        rcases hres with h | h
        · simp only [Except.ok.injEq, DirectStep.done.injEq] at h
          refine ⟨(replaceCRLF r).drop n, by rw [← h.1], ?_⟩
          intro y hy
          exact hd3mem y (List.mem_of_mem_drop hy)
        · exact absurd h (by simp)
      · rw [if_neg hft] at hres
        rcases hres with h | h
        · simp only [Except.ok.injEq, DirectStep.done.injEq] at h
          refine ⟨(replaceCRLF r).take n ++ (replaceCRLF r).drop n, ?_, ?_⟩
          · rw [← h.1, List.append_assoc]
          · intro y hy
            rcases List.mem_append.mp hy with hy1 | hy2
            · exact hd3mem y (List.mem_of_mem_take hy1)
            · exact hd3mem y (List.mem_of_mem_drop hy2)
        · exact absurd h (by simp)

/-- Every `DIRECT` payload a flush step emits is at most 2000 bytes: the
buffer is truncated at 2000 before the linebreak split, which only
shortens it. -/
theorem directFlush_msgs_le {ft : FlushType} {d1 p0 : List Nat} {fw : Bool}
    {p : List Nat} {f : Bool} {m : List Msg}
    (hres : directFlush ft d1 p0 fw = .ok (.done p f m) ∨
      directFlush ft d1 p0 fw = .ok (.again p f m)) :
    ∀ q, Msg.direct q ∈ m → q.length ≤ 2000 := by
  unfold directFlush at hres
  cases htrim : trim_sgr_osc d1 true with
  | error err =>
    rw [htrim] at hres
    rcases hres with h | h <;> exact absurd h (by simp)
  | ok r =>
    rw [htrim] at hres
    dsimp only at hres
    by_cases hemp : replaceCRLF r = []
    · rw [if_pos hemp] at hres
      rcases hres with h | h
      · simp only [Except.ok.injEq, DirectStep.done.injEq] at h
        intro q hq
        rw [← h.2.2] at hq
        simp at hq
      · exact absurd h (by simp)
    · rw [if_neg hemp] at hres
      by_cases hover : 2000 < (replaceCRLF r).length
      · rw [if_pos hover] at hres
        have htk_ne : (replaceCRLF r).take 2000 ≠ [] := by
          intro hx
          have : ((replaceCRLF r).take 2000).length = 2000 := by
            rw [List.length_take]; omega
          rw [hx] at this
          simp at this
        obtain ⟨n, fw2, hsplit, hn⟩ :=
          lineSplit_spec ft ((replaceCRLF r).take 2000)
            ((replaceCRLF r).drop 2000 ++ p0) fw htk_ne
        rw [hsplit] at hres
        rcases hres with h | h
        · exact absurd h (by simp)
        · simp only [Except.ok.injEq, DirectStep.again.injEq] at h
          intro q hq
          rw [← h.2.2] at hq
          simp at hq
          rw [hq]
          simp [List.length_take]
      · rw [if_neg hover] at hres
        obtain ⟨n, fw2, hsplit, hn⟩ :=
          lineSplit_spec ft (replaceCRLF r) p0 fw hemp
        rw [hsplit] at hres
        dsimp only at hres
        by_cases hft : ft ≠ FlushType.IF_NECESSARY
        · rw [if_pos hft] at hres
          rcases hres with h | h
          · simp only [Except.ok.injEq, DirectStep.done.injEq] at h
            intro q hq
            rw [← h.2.2] at hq
            simp at hq
            rw [hq]
            rw [List.length_take]
            omega
          · exact absurd h (by simp)
        · rw [if_neg hft] at hres
          rcases hres with h | h
          · simp only [Except.ok.injEq, DirectStep.done.injEq] at h
            intro q hq
            rw [← h.2.2] at hq
            simp at hq
          · exact absurd h (by simp)

/-- Core of claim C7: every `DIRECT` payload the `handle_ptm` loop emits is
at most 2000 bytes long. -/
theorem ptmLoop_direct_le (ft : FlushType) : ∀ (st : CommSt) (data : List Nat)
    (fw : Bool) (st' : CommSt) (fw' : Bool) (msgs : List Msg),
    ptmLoop ft st data fw = some (st', fw', msgs) →
    ∀ q, Msg.direct q ∈ msgs → q.length ≤ 2000 := by
  intro st data fw
  induction st, data, fw using ptmLoop.induct ft with
  | case1 st data fw hts hcont ih =>
    intro st' fw' msgs h
    rw [ptmLoop, hts] at h
    dsimp only at h
    rw [if_pos hcont] at h
    exact ih st' fw' msgs h
  | case2 st data fw hts hcont hs ih =>
    intro st' fw' msgs h
    rw [ptmLoop, hts] at h
    dsimp only at h
    rw [if_neg hcont, hs] at h
    dsimp only at h
    exact ih st' fw' msgs h
  | case3 st data fw hts hcont i hs a hdf =>
    intro st' fw' msgs h
    rw [ptmLoop, hts] at h
    dsimp only at h
    rw [if_neg hcont, hs] at h
    dsimp only at h
    rw [hdf] at h
    exact absurd h (by simp)
  | case4 st data fw hts hcont i hs p fwd msgs0 hdf =>
    intro st' fw' msgs h
    rw [ptmLoop, hts] at h
    dsimp only at h
    rw [if_neg hcont, hs] at h
    dsimp only at h
    rw [hdf] at h
    dsimp only at h
    simp only [Option.some.injEq, Prod.mk.injEq] at h
    intro q hq
    rw [← h.2.2] at hq
    exact directFlush_msgs_le (Or.inl hdf) q hq
  | case5 st data fw hts hcont i hs p fwd msgs0 hdf hnone ih =>
    intro st' fw' msgs h
    rw [ptmLoop, hts] at h
    dsimp only at h
    rw [if_neg hcont, hs] at h
    dsimp only at h
    rw [hdf] at h
    dsimp only at h
    rw [hts] at hnone
    rw [hnone] at h
    exact absurd h (by simp)
  | case6 st data fw hts hcont i hs p fwd msgs0 hdf st2 fw2 msgs2 hsome ih =>
    intro st' fw' msgs h
    rw [ptmLoop, hts] at h
    dsimp only at h
    rw [if_neg hcont, hs] at h
    dsimp only at h
    rw [hdf] at h
    dsimp only at h
    rw [hts] at hsome
    rw [hsome] at h
    dsimp only at h
    simp only [Option.some.injEq, Prod.mk.injEq] at h
    intro q hq
    rw [← h.2.2] at hq
    rcases List.mem_append.mp hq with hq1 | hq2
    · exact directFlush_msgs_le (Or.inr hdf) q hq1
    · rw [← hts] at hsome
      exact ih st2 fw2 msgs2 hsome q hq2
  | case7 st data fw hts hcont hs a hdf =>
    intro st' fw' msgs h
    rw [ptmLoop, hts] at h
    dsimp only at h
    rw [if_neg hcont, hs] at h
    dsimp only at h
    rw [hdf] at h
    exact absurd h (by simp)
  | case8 st data fw hts hcont hs p fwd msgs0 hdf =>
    intro st' fw' msgs h
    rw [ptmLoop, hts] at h
    dsimp only at h
    rw [if_neg hcont, hs] at h
    dsimp only at h
    rw [hdf] at h
    dsimp only at h
    simp only [Option.some.injEq, Prod.mk.injEq] at h
    intro q hq
    rw [← h.2.2] at hq
    exact directFlush_msgs_le (Or.inl hdf) q hq
  | case9 st data fw hts hcont hs p fwd msgs0 hdf hnone ih =>
    intro st' fw' msgs h
    rw [ptmLoop, hts] at h
    dsimp only at h
    rw [if_neg hcont, hs] at h
    dsimp only at h
    rw [hdf] at h
    dsimp only at h
    rw [hts] at hnone
    rw [hnone] at h
    exact absurd h (by simp)
  | case10 st data fw hts hcont hs p fwd msgs0 hdf st2 fw2 msgs2 hsome ih =>
    intro st' fw' msgs h
    rw [ptmLoop, hts] at h
    dsimp only at h
    rw [if_neg hcont, hs] at h
    dsimp only at h
    rw [hdf] at h
    dsimp only at h
    rw [hts] at hsome
    rw [hsome] at h
    dsimp only at h
    simp only [Option.some.injEq, Prod.mk.injEq] at h
    intro q hq
    rw [← h.2.2] at hq
    rcases List.mem_append.mp hq with hq1 | hq2
    · exact directFlush_msgs_le (Or.inr hdf) q hq1
    · rw [← hts] at hsome
      exact ih st2 fw2 msgs2 hsome q hq2
  | case11 st data fw hts hft hscrn =>
    intro st' fw' msgs h
    rw [ptmLoop, hts] at h
    dsimp only at h
    rw [if_pos hft, hscrn] at h
    exact absurd h (by simp)
  | case12 st data fw hts hft scr hscrn =>
    intro st' fw' msgs h
    rw [ptmLoop, hts] at h
    dsimp only at h
    rw [if_pos hft, hscrn] at h
    dsimp only at h
    simp only [Option.some.injEq, Prod.mk.injEq] at h
    intro q hq
    rw [← h.2.2] at hq
    simp at hq
  | case13 st data fw hts hft =>
    intro st' fw' msgs h
    rw [ptmLoop, hts] at h
    dsimp only at h
    rw [if_neg hft] at h
    simp only [Option.some.injEq, Prod.mk.injEq] at h
    intro q hq
    rw [← h.2.2] at hq
    simp at hq
  | case14 st data fw hts =>
    intro st' fw' msgs h
    rw [ptmLoop, hts] at h
    dsimp only at h
    simp only [Option.some.injEq, Prod.mk.injEq] at h
    intro q hq
    rw [← h.2.2] at hq
    simp at hq
  | case15 st data fw hts =>
    intro st' fw' msgs h
    rw [ptmLoop, hts] at h
    dsimp only at h
    simp only [Option.some.injEq, Prod.mk.injEq] at h
    intro q hq
    rw [← h.2.2] at hq
    simp at hq

theorem shiftE_error {t : Nat} {c : Except Unit (Option Nat)}
    (h : shiftE t c = .error ()) : c = .error () := by
  cases c with
  | error u => rfl
  | ok o => cases o <;> simp [shiftE] at h

/-- Re-scanning a buffer rebuilt as (ESC-free bytes) ++ (the undecidable
tail) cuts again exactly at the tail. -/
theorem escScan_rebuilt_cut {x D : List Nat} {i : Nat}
    (hx27 : (27 : Nat) ∉ x) (hDi : D[i]? = some 27)
    (hcheck : check_sgr_osc D i = .error ()) (hlen : i < D.length) :
    escScan (x ++ D.drop i) 0 = .cut x.length := by
  have hdropD : D.drop i = 27 :: D.drop (i + 1) := by
    rw [List.drop_eq_getElem_cons hlen]
    congr 1
    have := List.getElem?_eq_getElem hlen
    rw [this] at hDi
    simpa using hDi
  have hfind_tail : findFrom (D.drop i) 27 0 = some 0 := by
    rw [hdropD]
    show (if 27 = 27 then some 0 else (findFrom (D.drop (i + 1)) 27 0).map (· + 1)) = some 0
    rw [if_pos rfl]
  have hfind : findFrom (x ++ D.drop i) 27 0 = some x.length := by
    rw [findFrom_append_left hx27, hfind_tail]
    simp
  have hcheck_tail : check_sgr_osc (D.drop i) 0 = .error () := by
    have hsh := check_sgr_osc_shift D i 0
    rw [Nat.add_zero] at hsh
    rw [hcheck] at hsh
    exact shiftE_error hsh.symm
  have hcheck2 : check_sgr_osc (x ++ D.drop i) x.length = .error () := by
    have hsh := check_sgr_osc_shift (x ++ D.drop i) x.length 0
    rw [Nat.add_zero] at hsh
    rw [List.drop_left, hcheck_tail] at hsh
    exact hsh
  rw [escScan, hfind]
  dsimp only
  rw [hcheck2]

/-- On a clean-scanned buffer the flush step never raises, whatever the
flush type. -/
theorem directFlush_ok_of_clean {d1 : List Nat} (ft : FlushType) (p0 : List Nat)
    (fw : Bool) (hclean : escScan d1 0 = .clean) :
    ∃ step, directFlush ft d1 p0 fw = .ok step := by
  obtain ⟨r, hr, _, _, _⟩ := trimLoop_of_clean d1 true 0 rfl hclean
  have hr' : trim_sgr_osc d1 true = .ok r := hr
  unfold directFlush
  rw [hr']
  dsimp only
  by_cases hemp : replaceCRLF r = []
  · rw [if_pos hemp]
    exact ⟨_, rfl⟩
  · rw [if_neg hemp]
    by_cases hover : 2000 < (replaceCRLF r).length
    · rw [if_pos hover]
      cases hls : lineSplit ft ((replaceCRLF r).take 2000)
          ((replaceCRLF r).drop 2000 ++ p0) fw with
      | mk dB rest =>
        exact ⟨_, rfl⟩
    · rw [if_neg hover]
      cases hls : lineSplit ft (replaceCRLF r) p0 fw with
      | mk dB rest =>
        dsimp only
        by_cases hft : ft ≠ FlushType.IF_NECESSARY
        · rw [if_pos hft]
          exact ⟨_, rfl⟩
        · rw [if_neg hft]
          exact ⟨_, rfl⟩

/-- Core of claim C2's tail clause: when the only undecided escape is an
undecidable tail (`escScan = .cut i`) and no erase byte is present,
`handle_ptm`'s loop completes without switching mode and the tail
`(pending ++ data)[i:]` ends up as a suffix of the new pending buffer. -/
theorem ptmLoop_cut_pending (ft : FlushType) : ∀ (st : CommSt) (data : List Nat)
    (fw : Bool),
    st.term_state = TermState.IN_EXEC_DIRECT →
    ∀ i, ¬(8 ∈ st.pending_out ++ data ∨ 127 ∈ st.pending_out ++ data) →
    escScan (st.pending_out ++ data) 0 = .cut i →
    ∃ st' fw' msgs, ptmLoop ft st data fw = some (st', fw', msgs) ∧
      st'.term_state = TermState.IN_EXEC_DIRECT ∧
      ∃ x, st'.pending_out = x ++ (st.pending_out ++ data).drop i := by
  intro st data fw
  induction st, data, fw using ptmLoop.induct ft with
  | case1 st data fw hts hcont ih =>
    intro _ i hnc _
    exact absurd hcont hnc
  | case2 st data fw hts hcont hs ih =>
    intro _ i _ hcut
    rw [hs] at hcut
    exact absurd hcut (by simp)
  | case3 st data fw hts hcont i0 hs a hdf =>
    intro _ i _ hcut
    rw [hs] at hcut
    have hi : i0 = i := by injection hcut
    subst hi
    have hclean := escScan_cut_take hs
    obtain ⟨step, hok⟩ :=
      directFlush_ok_of_clean ft ((st.pending_out ++ data).drop i0) fw hclean
    rw [hdf] at hok
    exact absurd hok (by simp)
  | case4 st data fw hts hcont i0 hs p fwd msgs0 hdf =>
    intro _ i _ hcut
    rw [hs] at hcut
    have hi : i0 = i := by injection hcut
    subst hi
    have hclean := escScan_cut_take hs
    obtain ⟨x, hx, _⟩ := directFlush_spec_x hclean (Or.inl hdf)
    refine ⟨{ st with pending_out := p }, fwd, msgs0, ?_, hts, x, hx⟩
    rw [ptmLoop, hts]
    dsimp only
    rw [if_neg hcont, hs]
    dsimp only
    rw [hdf]
  | case5 st data fw hts hcont i0 hs p fwd msgs0 hdf hnone ih =>
    intro _ i hnc hcut
    rw [hs] at hcut
    have hi : i0 = i := by injection hcut
    subst hi
    have hclean := escScan_cut_take hs
    obtain ⟨x, hx, hxprop⟩ := directFlush_spec_x hclean (Or.inr hdf)
    obtain ⟨h27D, hchk, hlenD⟩ := escScan_cut_facts hs
    have hx27 : (27 : Nat) ∉ x := fun hm => (hxprop 27 hm).1 rfl
    have hscan2 : escScan (p ++ []) 0 = .cut x.length := by
      rw [List.append_nil, hx]
      exact escScan_rebuilt_cut hx27 h27D hchk hlenD
    have hnc2 : ¬(8 ∈ p ++ [] ∨ 127 ∈ p ++ []) := by
      rw [List.append_nil, hx]
      intro hmem
      rcases hmem with hm | hm <;> rcases List.mem_append.mp hm with hm1 | hm2
      · rcases (hxprop 8 hm1).2 with hin | h10
        · exact hnc (Or.inl (List.mem_of_mem_take hin))
        · omega
      · exact hnc (Or.inl (List.mem_of_mem_drop hm2))
      · rcases (hxprop 127 hm1).2 with hin | h10
        · exact hnc (Or.inr (List.mem_of_mem_take hin))
        · omega
      · exact hnc (Or.inr (List.mem_of_mem_drop hm2))
    obtain ⟨st2, fw2, msgs2, heq, _, _⟩ := ih hts x.length hnc2 hscan2
    rw [heq] at hnone
    exact absurd hnone (by simp)
  | case6 st data fw hts hcont i0 hs p fwd msgs0 hdf st2 fw2 msgs2 hsome ih =>
    intro _ i hnc hcut
    rw [hs] at hcut
    have hi : i0 = i := by injection hcut
    subst hi
    have hclean := escScan_cut_take hs
    obtain ⟨x, hx, hxprop⟩ := directFlush_spec_x hclean (Or.inr hdf)
    obtain ⟨h27D, hchk, hlenD⟩ := escScan_cut_facts hs
    have hx27 : (27 : Nat) ∉ x := fun hm => (hxprop 27 hm).1 rfl
    have hscan2 : escScan (p ++ []) 0 = .cut x.length := by
      rw [List.append_nil, hx]
      exact escScan_rebuilt_cut hx27 h27D hchk hlenD
    have hnc2 : ¬(8 ∈ p ++ [] ∨ 127 ∈ p ++ []) := by
      rw [List.append_nil, hx]
      intro hmem
      rcases hmem with hm | hm <;> rcases List.mem_append.mp hm with hm1 | hm2
      · rcases (hxprop 8 hm1).2 with hin | h10
        · exact hnc (Or.inl (List.mem_of_mem_take hin))
        · omega
      · exact hnc (Or.inl (List.mem_of_mem_drop hm2))
      · rcases (hxprop 127 hm1).2 with hin | h10
        · exact hnc (Or.inr (List.mem_of_mem_take hin))
        · omega
      · exact hnc (Or.inr (List.mem_of_mem_drop hm2))
    obtain ⟨st3, fw3, msgs3, heq, hmode3, x2, hx2⟩ := ih hts x.length hnc2 hscan2
    have hsome2 := hsome
    rw [heq] at hsome2
    simp only [Option.some.injEq, Prod.mk.injEq] at hsome2
    obtain ⟨hst, hfw, hmsgs⟩ := hsome2
    refine ⟨st2, fw2, msgs0 ++ msgs2, ?_, ?_, ?_⟩
    · rw [ptmLoop, hts]
      dsimp only
      rw [if_neg hcont, hs]
      dsimp only
      rw [hdf]
      dsimp only
      rw [hts] at hsome
      rw [hsome]
    · rw [← hst]
      exact hmode3
    · refine ⟨x2, ?_⟩
      rw [← hst, hx2, List.append_nil, hx, List.drop_left]
  | case7 st data fw hts hcont hs a hdf =>
    intro _ i _ hcut
    rw [hs] at hcut
    exact absurd hcut (by simp)
  | case8 st data fw hts hcont hs p fwd msgs0 hdf =>
    intro _ i _ hcut
    rw [hs] at hcut
    exact absurd hcut (by simp)
  | case9 st data fw hts hcont hs p fwd msgs0 hdf hnone ih =>
    intro _ i _ hcut
    rw [hs] at hcut
    exact absurd hcut (by simp)
  | case10 st data fw hts hcont hs p fwd msgs0 hdf st2 fw2 msgs2 hsome ih =>
    intro _ i _ hcut
    rw [hs] at hcut
    exact absurd hcut (by simp)
  | case11 st data fw hts hft hscrn =>
    intro hmode _ _ _
    rw [hts] at hmode
    simp at hmode
  | case12 st data fw hts hft scr hscrn =>
    intro hmode _ _ _
    rw [hts] at hmode
    simp at hmode
  | case13 st data fw hts hft =>
    intro hmode _ _ _
    rw [hts] at hmode
    simp at hmode
  | case14 st data fw hts =>
    intro hmode _ _ _
    rw [hts] at hmode
    simp at hmode
  | case15 st data fw hts =>
    intro hmode _ _ _
    rw [hts] at hmode
    simp at hmode

/-- Evaluation of the loop in `IN_EXEC_TERMEMU` with a live screen. -/
theorem ptmLoop_termemu_eval (ft : FlushType) (st : CommSt) (data : List Nat)
    (fw : Bool) (scr : Screen) (hts : st.term_state = TermState.IN_EXEC_TERMEMU)
    (hscr : st.te_screen = some scr) :
    ptmLoop ft st data fw =
      if ft ≠ FlushType.IF_NECESSARY then
        some ({ st with pending_out := [] }, fw,
          [Msg.display (render_display scr)])
      else
        some ({ st with pending_out := [] }, true, []) := by
  rw [ptmLoop, hts]
  dsimp only
  by_cases hft : ft ≠ FlushType.IF_NECESSARY
  · rw [if_pos hft, if_pos hft, hscr]
  · rw [if_neg hft, if_neg hft]

/-- Core of claim C2's promotion clause: an erase byte or a decided
non-SGR/OSC escape makes the loop discard the buffer, emit no `DIRECT`
message, and leave the session in `IN_EXEC_TERMEMU`. -/
theorem ptmLoop_promote (ft : FlushType) (st : CommSt) (data : List Nat)
    (fw : Bool) (scr : Screen)
    (hts : st.term_state = TermState.IN_EXEC_DIRECT)
    (hscr : st.te_screen = some scr)
    (htrig : (8 ∈ st.pending_out ++ data ∨ 127 ∈ st.pending_out ++ data) ∨
      escScan (st.pending_out ++ data) 0 = .switch) :
    ∃ st' fw' msgs, ptmLoop ft st data fw = some (st', fw', msgs) ∧
      st'.term_state = TermState.IN_EXEC_TERMEMU ∧
      ∀ q, Msg.direct q ∉ msgs := by
  have hrec : ∀ fw2 : Bool,
      ∃ st' fw' msgs,
        ptmLoop ft
            { st with term_state := TermState.IN_EXEC_TERMEMU, pending_out := [] }
            [] fw2 = some (st', fw', msgs) ∧
        st'.term_state = TermState.IN_EXEC_TERMEMU ∧
        ∀ q, Msg.direct q ∉ msgs := by
    intro fw2
    rw [ptmLoop_termemu_eval ft _ [] fw2 scr rfl (by simpa using hscr)]
    by_cases hft : ft ≠ FlushType.IF_NECESSARY
    · rw [if_pos hft]
      exact ⟨_, fw2, _, rfl, rfl, by simp⟩
    · rw [if_neg hft]
      exact ⟨_, true, _, rfl, rfl, by simp⟩
  by_cases hcont : 8 ∈ st.pending_out ++ data ∨ 127 ∈ st.pending_out ++ data
  · obtain ⟨st', fw', msgs, heq, hmode, hnom⟩ := hrec fw
    refine ⟨st', fw', msgs, ?_, hmode, hnom⟩
    rw [ptmLoop, hts]
    dsimp only
    rw [if_pos hcont]
    exact heq
  · have hsw : escScan (st.pending_out ++ data) 0 = .switch := by
      rcases htrig with h | h
      · exact absurd h hcont
      · exact h
    obtain ⟨st', fw', msgs, heq, hmode, hnom⟩ := hrec fw
    refine ⟨st', fw', msgs, ?_, hmode, hnom⟩
    rw [ptmLoop, hts]
    dsimp only
    rw [if_neg hcont, hsw]
    dsimp only
    exact heq

/-! ## Shape of the `DISPLAY` payload (claim C8 support) -/

theorem dropWhile_congr_mem {p q : Char → Bool} :
    ∀ (l : List Char), (∀ c ∈ l, p c = q c) → l.dropWhile p = l.dropWhile q := by
  intro l
  induction l with
  | nil => intro _; rfl
  | cons x xs ih =>
    intro h
    have hx := h x (List.mem_cons_self x xs)
    rw [List.dropWhile_cons, List.dropWhile_cons, hx]
    by_cases hq : q x = true
    · rw [if_pos hq, if_pos hq]
      exact ih (fun c hc => h c (List.mem_cons_of_mem _ hc))
    · rw [if_neg hq, if_neg hq]

/-- On rows whose whitespace is only spaces, Python `rstrip()` is exactly
the spec's "right-trimmed of spaces". -/
theorem pyRstrip_eq_trim {l : List Char}
    (h : ∀ c ∈ l, isPySpace c = true → c = ' ') :
    pyRstrip l = trimTrailingSpaces l := by
  unfold pyRstrip trimTrailingSpaces
  congr 1
  apply dropWhile_congr_mem
  intro c hc
  have hcl : c ∈ l := List.mem_reverse.mp hc
  by_cases hsp : c = ' '
  · subst hsp
    simp [isPySpace]
  · have h1 : isPySpace c = false := by
      cases hps : isPySpace c
      · rfl
      · exact absurd (h c hcl hps) hsp
    rw [h1]
    simp [hsp]

theorem trimTrailingSpaces_subset {l : List Char} {c : Char}
    (h : c ∈ trimTrailingSpaces l) : c ∈ l := by
  unfold trimTrailingSpaces at h
  have := List.mem_reverse.mp h
  exact List.mem_reverse.mp ((List.dropWhile_sublist _).mem this)

theorem joinLines_cons (a : List Char) (ls : List (List Char)) :
    joinLines (a :: ls) = a ++ '\n' :: joinLines ls := by
  unfold joinLines
  simp

theorem renderRows_eq (cy : Nat) :
    ∀ (rows : List (List Char)) (k : Nat),
    (∀ row ∈ rows, ∀ c ∈ row, isPySpace c = true → c = ' ') →
    renderRows cy k rows =
      joinLines (((List.range rows.length).zip rows).map
        (fun p => (if cy = k + p.1 then '-' else ' ') :: trimTrailingSpaces p.2)) := by
  intro rows
  induction rows with
  | nil => intro k _; rfl
  | cons row rest ih =>
    intro k hws
    have hrow := hws row (List.mem_cons_self row rest)
    have hrest : ∀ r ∈ rest, ∀ c ∈ r, isPySpace c = true → c = ' ' :=
      fun r hr => hws r (List.mem_cons_of_mem _ hr)
    rw [renderRows, ih (k + 1) hrest, pyRstrip_eq_trim hrow,
      List.length_cons, List.range_succ_eq_map, List.zip_cons_cons,
      List.map_cons, joinLines_cons]
    dsimp only
    rw [Nat.add_zero]
    rw [List.zip_map_left, List.map_map]
    have hmaps : ∀ p ∈ (List.range rest.length).zip rest,
        ((fun p => (if cy = k + p.1 then '-' else ' ') :: trimTrailingSpaces p.2) ∘
          Prod.map Nat.succ id) p =
        (fun p => (if cy = k + 1 + p.1 then '-' else ' ') :: trimTrailingSpaces p.2)
          p := by
      intro p _
      obtain ⟨pi, pr⟩ := p
      simp only [Function.comp_apply, Prod.map_apply, id]
      have harith : k + Nat.succ pi = k + 1 + pi := by omega
      simp only [harith]
    rw [List.map_congr_left hmaps]
    simp [List.append_assoc]

theorem render_display_eq (scr : Screen)
    (hws : ∀ row ∈ scr.display, ∀ c ∈ row, isPySpace c = true → c = ' ') :
    render_display scr = joinLines (displayLines scr) := by
  unfold render_display displayLines
  rw [joinLines_cons, renderRows_eq scr.y scr.display 0 hws]
  simp [List.append_assoc]

theorem displayLines_length (scr : Screen) (h24 : scr.display.length = 24) :
    (displayLines scr).length = 25 := by
  simp [displayLines, h24]

theorem displayLines_no_newline (scr : Screen)
    (hws : ∀ row ∈ scr.display, ∀ c ∈ row, isPySpace c = true → c = ' ') :
    ∀ l ∈ displayLines scr, '\n' ∉ l := by
  intro l hl
  unfold displayLines at hl
  rcases List.mem_cons.mp hl with hhd | htl
  · subst hhd
    intro hmem
    rcases List.mem_append.mp hmem with hm | hm
    · have := List.eq_of_mem_replicate hm
      simp at this
    · simp at hm
  · obtain ⟨p, hp, hpe⟩ := List.mem_map.mp htl
    subst hpe
    intro hmem
    rcases List.mem_cons.mp hmem with hm | hm
    · by_cases hc : scr.y = p.1 <;> simp [hc] at hm
    · have hrow : p.2 ∈ scr.display := (List.of_mem_zip hp).2
      have := hws p.2 hrow '\n' (trimTrailingSpaces_subset hm)
      simp [isPySpace] at this

/-! ## Upload-file support lemmas -/

theorem uf_write_efbig_mono {reg : Bool} {f : UploadFile} {buf : List Nat}
    {off : Nat} (h : f.efbig_hit = true) :
    (uf_write reg f buf off).1.efbig_hit = true := by
  unfold uf_write
  by_cases h1 : ¬reg = true
  · rw [if_pos h1]; exact h
  · rw [if_neg h1]
    by_cases h2 : off ≠ f.data.length
    · rw [if_pos h2]; exact h
    · rw [if_neg h2]
      by_cases h3 : 8 <<< 20 < f.data.length + buf.length
      · rw [if_pos h3]
      · rw [if_neg h3]; exact h

theorem uf_write_efbig_of_neg27 {reg : Bool} {f : UploadFile} {buf : List Nat}
    {off : Nat} (h : (uf_write reg f buf off).2 = -27) :
    (uf_write reg f buf off).1.efbig_hit = true := by
  unfold uf_write at h ⊢
  by_cases h1 : ¬reg = true
  · rw [if_pos h1] at h; simp at h
  · rw [if_neg h1] at h ⊢
    by_cases h2 : off ≠ f.data.length
    · rw [if_pos h2] at h; simp at h
    · rw [if_neg h2] at h ⊢
      by_cases h3 : 8 <<< 20 < f.data.length + buf.length
      · rw [if_pos h3]
      · rw [if_neg h3] at h
        simp at h

theorem runWrites_mono : ∀ (ops : List (Bool × List Nat × Nat)) (f : UploadFile),
    f.efbig_hit = true → (runWrites f ops).1.efbig_hit = true := by
  intro ops
  induction ops with
  | nil => intro f h; exact h
  | cons op rest ih =>
    intro f h
    obtain ⟨reg, buf, off⟩ := op
    rw [runWrites]
    exact ih _ (uf_write_efbig_mono h)

theorem runWrites_efbig : ∀ (ops : List (Bool × List Nat × Nat)) (f : UploadFile),
    (-27 : Int) ∈ (runWrites f ops).2 → (runWrites f ops).1.efbig_hit = true := by
  intro ops
  induction ops with
  | nil => intro f h; simp [runWrites] at h
  | cons op rest ih =>
    intro f h
    obtain ⟨reg, buf, off⟩ := op
    rw [runWrites] at h ⊢
    dsimp only at h ⊢
    rcases List.mem_cons.mp h with hm | hm
    · have hef : (uf_write reg f buf off).1.efbig_hit = true :=
        uf_write_efbig_of_neg27 hm.symm
      exact runWrites_mono rest _ hef
    · exact ih _ hm

/-! ## Small evaluation helpers for concrete runs -/

/-- A trivial terminal emulation (the `DIRECT`-mode behavior under scrutiny
does not depend on the screen contents). -/
def feedConst : Screen → List Nat → Screen := fun s _ => s

theorem trimLoop_noesc {d : List Nat} (a : Bool) {s : Nat}
    (hf : findFrom d 27 s = none) : trimLoop d a s = .ok d := by
  rw [trimLoop, hf]

theorem replaceCRLF_noop {l : List Nat} (h : hasCRLF l = false) :
    replaceCRLF l = l := by
  rw [replaceCRLF, dif_neg (by simp [h])]

theorem escScan_noesc {d : List Nat} {s : Nat} (hf : findFrom d 27 s = none) :
    escScan d s = .clean := by
  rw [escScan, hf]

theorem ptmLoop_clean_done (ft : FlushType) (st : CommSt) (data : List Nat)
    (fw : Bool) (p : List Nat) (f : Bool) (m : List Msg)
    (hts : st.term_state = TermState.IN_EXEC_DIRECT)
    (hcont : ¬(8 ∈ st.pending_out ++ data ∨ 127 ∈ st.pending_out ++ data))
    (hs : escScan (st.pending_out ++ data) 0 = ScanRes.clean)
    (hdf : directFlush ft (st.pending_out ++ data) [] fw = .ok (.done p f m)) :
    ptmLoop ft st data fw = some ({ st with pending_out := p }, f, m) := by
  rw [ptmLoop, hts]
  dsimp only
  rw [if_neg hcont, hs]
  dsimp only
  rw [hdf]

theorem handle_ptm_as_loop (feed : Screen → List Nat → Screen) (st : CommSt)
    (data0 : List Nat) (ft : FlushType)
    (hfilter : data0.filter (fun b => decide (b ≠ 0)) = data0)
    (hfeed : (if data0 ≠ [] ∧ st.te_screen.isSome then
      { st with te_screen := st.te_screen.map (fun scr => feed scr data0) }
      else st) = st) :
    handle_ptm feed st data0 ft =
      match ptmLoop ft st data0 false with
      | none => none
      | some (st', fw, msgs) => some ({ st' with has_flush_wait := fw }, msgs) := by
  unfold handle_ptm
  dsimp only
  rw [hfilter, hfeed]

theorem reSub_nil : reSub [] = [] := by
  rw [reSub]

theorem reSub_cons_none {b : Nat} {rest : List Nat}
    (h : ansiMatch (b :: rest) = none) : reSub (b :: rest) = b :: reSub rest := by
  rw [reSub, h]

/-! # Claim theorems -/

/-- C10: for every byte string `d` and index `i` with `d[i] = 0x1B`,
`check_sgr_osc d i` terminates (it is a total function here) and either
returns `(False, None)`, raises `IndexError` (modelled `.error ()`, which in
the embedding happens exactly on an access at or past `d.length`), or
returns `(True, end)` with `i < end ≤ d.length` — so the caller's tail-carry
and splice logic never receives an out-of-range end index. -/
theorem c10_check_sgr_osc_safe (d : List Nat) (i : Nat) (h : d[i]? = some 27) :
    check_sgr_osc d i = .ok none ∨ check_sgr_osc d i = .error () ∨
    ∃ e, check_sgr_osc d i = .ok (some e) ∧ i < e ∧ e ≤ d.length := by
  cases hc : check_sgr_osc d i with
  | error u => right; left; rfl
  | ok o =>
    cases o with
    | none => left; rfl
    | some e =>
      right; right
      exact ⟨e, rfl, (check_sgr_osc_bounds hc).1, (check_sgr_osc_bounds hc).2⟩

/-- Witness for C10 at the concrete SGR run `ESC [ m`. -/
theorem c10_witness :
    ([27, 91, 109] : List Nat)[0]? = some 27 ∧
    (check_sgr_osc [27, 91, 109] 0 = .ok none ∨
      check_sgr_osc [27, 91, 109] 0 = .error () ∨
      ∃ e, check_sgr_osc [27, 91, 109] 0 = .ok (some e) ∧ 0 < e ∧
        e ≤ ([27, 91, 109] : List Nat).length) :=
  ⟨rfl, c10_check_sgr_osc_safe [27, 91, 109] 0 rfl⟩

/-- C5: the race tiebreaker of `on_cmd_ptm` is the stated pure function of
the current mode and the control-packet tag: `PROMPT`-mode `RESP_BEGIN`
defers the PTY read (control packet dispatched first); `RESP_PROMPT` defers
the control packet (PTY data dispatched first); every other combination
defers the PTY read. -/
theorem c5_race_tiebreaker (ts : TermState) (cmd : osaibot_response) :
    (ts = TermState.IN_PROMPT ∧ cmd = osaibot_response.RESP_BEGIN →
      race_tiebreaker ts cmd = DropChoice.dropPtm) ∧
    (cmd = osaibot_response.RESP_PROMPT →
      race_tiebreaker ts cmd = DropChoice.dropCmd) ∧
    (¬(ts = TermState.IN_PROMPT ∧ cmd = osaibot_response.RESP_BEGIN) →
      cmd ≠ osaibot_response.RESP_PROMPT →
      race_tiebreaker ts cmd = DropChoice.dropPtm) := by
  cases ts <;> cases cmd <;> simp [race_tiebreaker]

/-- Witness for C5 at the three representative mode/tag combinations. -/
theorem c5_witness :
    race_tiebreaker TermState.IN_PROMPT osaibot_response.RESP_BEGIN =
      DropChoice.dropPtm ∧
    race_tiebreaker TermState.IN_EXEC_DIRECT osaibot_response.RESP_PROMPT =
      DropChoice.dropCmd ∧
    race_tiebreaker TermState.IN_EXEC_DIRECT osaibot_response.RESP_BEGIN =
      DropChoice.dropPtm :=
  ⟨(c5_race_tiebreaker TermState.IN_PROMPT osaibot_response.RESP_BEGIN).1
      ⟨rfl, rfl⟩,
   (c5_race_tiebreaker TermState.IN_EXEC_DIRECT osaibot_response.RESP_PROMPT).2.1
      rfl,
   (c5_race_tiebreaker TermState.IN_EXEC_DIRECT osaibot_response.RESP_BEGIN).2.2
      (by simp) (by simp)⟩

/-- C9: for uploads, a write whose accepted data plus new buffer would
exceed 8 MiB returns `-EFBIG` and leaves the stored data unchanged (only
the sticky `efbig_hit` flag is set); writes at an offset other than the
current length return `-EINVAL`; reads return `-EPERM`; and once any write
in a sequence has returned `-EFBIG`, `release` invokes no upload callback
(no `UPLOAD` message for that file), whatever the registry state. -/
theorem c9_upload_errors :
    (∀ (f : UploadFile) (buf : List Nat),
      8 <<< 20 < f.data.length + buf.length →
      uf_write true f buf f.data.length = ({ f with efbig_hit := true }, -27)) ∧
    (∀ (f : UploadFile) (buf : List Nat) (off : Nat),
      off ≠ f.data.length → uf_write true f buf off = (f, -22)) ∧
    (∀ size offset, uf_read size offset = -1) ∧
    (∀ (f : UploadFile) (ops : List (Bool × List Nat × Nat)),
      (-27 : Int) ∈ (runWrites f ops).2 →
      ∀ reg, uf_release reg (runWrites f ops).1 = none) := by
  refine ⟨?_, ?_, ?_, ?_⟩
  · intro f buf h
    simp [uf_write, h]
    omega
  · intro f buf off hne
    simp [uf_write, hne]
  · intro size offset
    rfl
  · intro f ops hm reg
    have hef := runWrites_efbig ops f hm
    simp [uf_release, hef]

/-- An 8 MiB + 1 buffer of NUL bytes, kept behind a name so proofs reason
with its length only. -/
def bigbuf : List Nat := List.replicate 8388609 0

/-- Witness for C9 at concrete writes: an oversized write from offset 0,
a mis-offset write, a read, and a release after an EFBIG hit. -/
theorem c9_witness :
    uf_write true ⟨[], false⟩ bigbuf 0 = (⟨[], true⟩, -27) ∧
    uf_write true ⟨[2], false⟩ [3] 5 = (⟨[2], false⟩, -22) ∧
    uf_read 4 0 = -1 ∧
    uf_release true (runWrites ⟨[], false⟩ [(true, bigbuf, 0)]).1 = none := by
  have hlen : bigbuf.length = 8388609 := List.length_replicate 8388609 0
  have hbig : 8 <<< 20 <
      (⟨[], false⟩ : UploadFile).data.length + bigbuf.length := by
    rw [hlen]
    decide
  have h1 : uf_write true ⟨[], false⟩ bigbuf 0 = (⟨[], true⟩, -27) :=
    c9_upload_errors.1 ⟨[], false⟩ bigbuf hbig
  refine ⟨h1, c9_upload_errors.2.1 ⟨[2], false⟩ [3] 5 (by decide),
    c9_upload_errors.2.2.1 4 0, ?_⟩
  have hmem : (-27 : Int) ∈ (runWrites ⟨[], false⟩ [(true, bigbuf, 0)]).2 := by
    rw [runWrites]
    dsimp only
    rw [h1]
    dsimp only
    exact List.mem_cons_self _ _
  exact c9_upload_errors.2.2.2 ⟨[], false⟩ [(true, bigbuf, 0)] hmem true

/-- C4: in either execution mode, with a live terminal screen, the forced
drain `handle_ptm(b'', FORCED)` performed by `handle_cmd` on `RESP_PROMPT`
terminates without error and leaves `has_flush_wait` equal to `False`
(whatever the pending buffer holds), so the subsequent
`assert not self.has_flush_wait` never fails. -/
theorem c4_forced_drain (feed : Screen → List Nat → Screen) (st : CommSt)
    (hscr : st.te_screen.isSome = true)
    (hmode : st.term_state = TermState.IN_EXEC_DIRECT ∨
      st.term_state = TermState.IN_EXEC_TERMEMU) :
    ∃ st' msgs, handle_ptm feed st [] FlushType.FORCED = some (st', msgs) ∧
      st'.has_flush_wait = false := by
  obtain ⟨st', msgs, hloop⟩ := ptmLoop_forced_ok st [] false hscr hmode
  refine ⟨{ st' with has_flush_wait := false }, msgs, ?_, rfl⟩
  rw [handle_ptm_as_loop feed st [] FlushType.FORCED rfl (by simp), hloop]

/-- Witness for C4: a `DIRECT`-mode state with a nonempty pending buffer
(two stray carriage returns) and `has_flush_wait` initially set. -/
theorem c4_witness :
    ∃ st' msgs,
      handle_ptm feedConst
        ⟨TermState.IN_EXEC_DIRECT, [13, 13], some ⟨0, 0, []⟩, true⟩ []
        FlushType.FORCED = some (st', msgs) ∧
      st'.has_flush_wait = false :=
  c4_forced_drain feedConst
    ⟨TermState.IN_EXEC_DIRECT, [13, 13], some ⟨0, 0, []⟩, true⟩ rfl (Or.inl rfl)

/-- C7: every `DIRECT` message emitted by `handle_ptm`, on any input and any
flush type, carries at most 2000 Unicode code points: the byte payload is
capped at 2000 bytes and decoding with replacement never yields more code
points than bytes. -/
theorem c7_direct_le_2000 (feed : Screen → List Nat → Screen) (st : CommSt)
    (data0 : List Nat) (ft : FlushType) (st' : CommSt) (msgs : List Msg)
    (h : handle_ptm feed st data0 ft = some (st', msgs)) :
    ∀ q, Msg.direct q ∈ msgs → (utf8DecodeReplace q).length ≤ 2000 := by
  intro q hq
  unfold handle_ptm at h
  dsimp only at h
  split at h
  · exact absurd h (by simp)
  · rename_i st1' fw msgs' hloop
    rw [Option.some_inj] at h
    rw [← (Prod.mk.inj h).2] at hq
    exact le_trans (utf8DecodeReplace_length_le q)
      (ptmLoop_direct_le ft _ _ false st1' fw msgs' hloop q hq)

/-- Witness for C7: a fresh `DIRECT`-mode session receiving `"a\n"` on a
timer flush emits exactly one `DIRECT` message, and the bound applies. -/
theorem c7_witness :
    handle_ptm feedConst ⟨TermState.IN_EXEC_DIRECT, [], some ⟨0, 0, []⟩, false⟩
      [97, 10] FlushType.HIT_TIMER =
      some (⟨TermState.IN_EXEC_DIRECT, [], some ⟨0, 0, []⟩, false⟩,
        [Msg.direct [97, 10]]) ∧
    ∀ q, Msg.direct q ∈ [Msg.direct [97, 10]] →
      (utf8DecodeReplace q).length ≤ 2000 := by
  have hdf : directFlush FlushType.HIT_TIMER (([] : List Nat) ++ [97, 10]) []
      false = .ok (.done [] false [Msg.direct [97, 10]]) := by
    have htrim : trim_sgr_osc (([] : List Nat) ++ [97, 10]) true =
        .ok (([] : List Nat) ++ [97, 10]) := trimLoop_noesc true (by decide)
    unfold directFlush
    rw [htrim]
    dsimp only
    rw [replaceCRLF_noop (by decide)]
    rfl
  have heq : handle_ptm feedConst
      ⟨TermState.IN_EXEC_DIRECT, [], some ⟨0, 0, []⟩, false⟩ [97, 10]
      FlushType.HIT_TIMER =
      some (⟨TermState.IN_EXEC_DIRECT, [], some ⟨0, 0, []⟩, false⟩,
        [Msg.direct [97, 10]]) := by
    rw [handle_ptm_as_loop feedConst _ _ _ rfl rfl]
    rw [ptmLoop_clean_done FlushType.HIT_TIMER _ [97, 10] false [] false
      [Msg.direct [97, 10]] rfl (by decide) (escScan_noesc (by decide)) hdf]
  exact ⟨heq, c7_direct_le_2000 _ _ _ _ _ _ heq⟩

/-- C3 (refuted — code bug): the spec says trailing `0x0D` bytes are pulled
back into pending before flushing, but comm.py line 508 compares the `int`
`data[-1]` against the `bytes` literal `b'\r'`, which is always `False` in
Python 3, so the pull-back loop never runs.  Concretely, a `DIRECT`-mode
session holding `"ab\r"` flushes the carriage return out in the `DIRECT`
payload on a timer flush and leaves the pending buffer empty, contradicting
the claim that no emitted `DIRECT` payload ends with a trailing CR. -/
theorem c3_trailing_cr_counterexample :
    handle_ptm feedConst ⟨TermState.IN_EXEC_DIRECT, [], some ⟨0, 0, []⟩, false⟩
      [97, 98, 13] FlushType.HIT_TIMER =
      some (⟨TermState.IN_EXEC_DIRECT, [], some ⟨0, 0, []⟩, false⟩,
        [Msg.direct [97, 98, 13]]) ∧
    ([97, 98, 13] : List Nat).getLast? = some 13 := by
  have hdf : directFlush FlushType.HIT_TIMER (([] : List Nat) ++ [97, 98, 13])
      [] false = .ok (.done [] false [Msg.direct [97, 98, 13]]) := by
    have htrim : trim_sgr_osc (([] : List Nat) ++ [97, 98, 13]) true =
        .ok (([] : List Nat) ++ [97, 98, 13]) := trimLoop_noesc true (by decide)
    unfold directFlush
    rw [htrim]
    dsimp only
    rw [replaceCRLF_noop (by decide)]
    rfl
  refine ⟨?_, by decide⟩
  rw [handle_ptm_as_loop feedConst _ _ _ rfl rfl]
  rw [ptmLoop_clean_done FlushType.HIT_TIMER _ [97, 98, 13] false [] false
    [Msg.direct [97, 98, 13]] rfl (by decide) (escScan_noesc (by decide)) hdf]

/-- C6 (refuted — code bug): the spec says the emitted `PROMPT` payload
contains no surviving `0x1B`, `0x0D`, `0x08`, or `0x7F`; comm.py line 620
computes `prompt.translate(None, b'\x1b\r\b\x7f')` but discards the result
(it is never assigned), so those bytes survive.  Concretely, a prompt
payload `"x\r"` is emitted unchanged, carriage return included; the trim
and the lenient-regex pass do apply, but the byte-erasure clause of the
claim fails. -/
theorem c6_prompt_keeps_cr :
    handle_cmd feedConst ⟨TermState.IN_EXEC_DIRECT, [], some ⟨0, 0, []⟩, false⟩
      osaibot_response.RESP_PROMPT [120, 13] =
      some (⟨TermState.IN_PROMPT, [], some ⟨0, 0, []⟩, false⟩,
        [Msg.prompt [120, 13]]) ∧
    process_prompt [120, 13] = [120, 13] ∧
    (13 : Nat) ∈ process_prompt [120, 13] := by
  have hpp : process_prompt [120, 13] = [120, 13] := by
    have htrim : trim_sgr_osc [120, 13] false = .ok [120, 13] :=
      trimLoop_noesc false (by decide)
    unfold process_prompt
    dsimp only
    rw [htrim]
    dsimp only
    rw [reSub_cons_none (by decide), reSub_cons_none (by decide), reSub_nil]
  have hdf0 : directFlush FlushType.FORCED (([] : List Nat) ++ []) [] false =
      .ok (.done [] false []) := by
    have htrim0 : trim_sgr_osc (([] : List Nat) ++ []) true =
        .ok (([] : List Nat) ++ []) := trimLoop_noesc true (by decide)
    unfold directFlush
    rw [htrim0]
    dsimp only
    rw [replaceCRLF_noop (by decide)]
    rfl
  have hdrain : handle_ptm feedConst
      ⟨TermState.IN_EXEC_DIRECT, [], some ⟨0, 0, []⟩, false⟩ []
      FlushType.FORCED =
      some (⟨TermState.IN_EXEC_DIRECT, [], some ⟨0, 0, []⟩, false⟩, []) := by
    rw [handle_ptm_as_loop feedConst _ _ _ rfl (by simp)]
    rw [ptmLoop_clean_done FlushType.FORCED _ [] false [] false []
      rfl (by decide) (escScan_noesc (by decide)) hdf0]
  refine ⟨?_, hpp, by rw [hpp]; decide⟩
  unfold handle_cmd
  dsimp only
  rw [hdrain]
  dsimp only
  rw [hpp]
  rfl

theorem handle_ptm_eq (feed : Screen → List Nat → Screen) (st : CommSt)
    (data0 : List Nat) (ft : FlushType) :
    handle_ptm feed st data0 ft =
      match ptmLoop ft
          (if data0.filter (fun b => decide (b ≠ 0)) ≠ [] ∧ st.te_screen.isSome
            then { st with te_screen := st.te_screen.map (fun scr => feed scr (data0.filter (fun b => decide (b ≠ 0)))) }
            else st)
          (data0.filter (fun b => decide (b ≠ 0))) false with
      | none => none
      | some (st', fw, msgs) => some ({ st' with has_flush_wait := fw }, msgs) :=
  rfl

/-- C2: in `EXEC_DIRECT` mode (with a live screen), if the pending buffer
plus the NUL-stripped new data contains `0x08` or `0x7F`, or its escape scan
decides some `0x1B` sequence as not SGR/OSC, then `handle_ptm` succeeds,
emits no `DIRECT` message for the buffered bytes, and moves the session to
`EXEC_TERMEMU`; if instead the scan stops at an undecidable `0x1B` tail at
index `i`, the session stays in `EXEC_DIRECT` and the tail from `i` on is
saved at the end of the pending buffer. -/
theorem c2_promote_or_truncate (feed : Screen → List Nat → Screen)
    (st : CommSt) (data0 : List Nat) (ft : FlushType) (scr : Screen)
    (hts : st.term_state = TermState.IN_EXEC_DIRECT)
    (hscr : st.te_screen = some scr) :
    (((8 ∈ st.pending_out ++ data0.filter (fun b => decide (b ≠ 0)) ∨
        127 ∈ st.pending_out ++ data0.filter (fun b => decide (b ≠ 0))) ∨
      escScan (st.pending_out ++ data0.filter (fun b => decide (b ≠ 0))) 0 =
        .switch) →
      ∃ st' msgs, handle_ptm feed st data0 ft = some (st', msgs) ∧
        st'.term_state = TermState.IN_EXEC_TERMEMU ∧
        ∀ q, Msg.direct q ∉ msgs) ∧
    (∀ i, ¬(8 ∈ st.pending_out ++ data0.filter (fun b => decide (b ≠ 0)) ∨
        127 ∈ st.pending_out ++ data0.filter (fun b => decide (b ≠ 0))) →
      escScan (st.pending_out ++ data0.filter (fun b => decide (b ≠ 0))) 0 =
        .cut i →
      ∃ st' msgs, handle_ptm feed st data0 ft = some (st', msgs) ∧
        st'.term_state = TermState.IN_EXEC_DIRECT ∧
        ∃ x, st'.pending_out = x ++
          (st.pending_out ++ data0.filter (fun b => decide (b ≠ 0))).drop i) := by
  constructor
  · intro htrig
    rw [handle_ptm_eq]
    set D := data0.filter (fun b => decide (b ≠ 0)) with hD
    by_cases hcond : D ≠ [] ∧ st.te_screen.isSome = true
    · rw [if_pos hcond]
      obtain ⟨st', fw', msgs, hloop, hmode, hnom⟩ :=
        ptmLoop_promote ft
          { st with te_screen := st.te_screen.map (fun s => feed s D) }
          D false (feed scr D) hts (by simp [hscr]) htrig
      refine ⟨{ st' with has_flush_wait := fw' }, msgs, ?_, hmode, hnom⟩
      rw [hloop]
    · rw [if_neg hcond]
      obtain ⟨st', fw', msgs, hloop, hmode, hnom⟩ :=
        ptmLoop_promote ft st D false scr hts hscr htrig
      refine ⟨{ st' with has_flush_wait := fw' }, msgs, ?_, hmode, hnom⟩
      rw [hloop]
  · intro i hnc hcut
    rw [handle_ptm_eq]
    set D := data0.filter (fun b => decide (b ≠ 0)) with hD
    by_cases hcond : D ≠ [] ∧ st.te_screen.isSome = true
    · rw [if_pos hcond]
      obtain ⟨st', fw', msgs, hloop, hmode, x, hx⟩ :=
        ptmLoop_cut_pending ft
          { st with te_screen := st.te_screen.map (fun s => feed s D) }
          D false hts i hnc hcut
      refine ⟨{ st' with has_flush_wait := fw' }, msgs, ?_, hmode, x, hx⟩
      rw [hloop]
    · rw [if_neg hcond]
      obtain ⟨st', fw', msgs, hloop, hmode, x, hx⟩ :=
        ptmLoop_cut_pending ft st D false hts i hnc hcut
      refine ⟨{ st' with has_flush_wait := fw' }, msgs, ?_, hmode, x, hx⟩
      rw [hloop]

theorem escScan_cut_of {d : List Nat} {s ind : Nat}
    (hf : findFrom d 27 s = some ind)
    (hc : check_sgr_osc d ind = .error ()) : escScan d s = .cut ind := by
  rw [escScan, hf]
  dsimp only
  rw [hc]

/-- Witness for C2: a lone backspace byte promotes a fresh `DIRECT` session
to `EXEC_TERMEMU` with no `DIRECT` output, and `"a" ++ ESC` (an undecidable
one-byte escape tail) keeps the session in `EXEC_DIRECT` with the `ESC`
tail saved in pending. -/
theorem c2_witness :
    (∃ st' msgs, handle_ptm feedConst
        ⟨TermState.IN_EXEC_DIRECT, [], some ⟨0, 0, []⟩, false⟩ [8]
        FlushType.FORCED = some (st', msgs) ∧
      st'.term_state = TermState.IN_EXEC_TERMEMU ∧
      ∀ q, Msg.direct q ∉ msgs) ∧
    (∃ st' msgs, handle_ptm feedConst
        ⟨TermState.IN_EXEC_DIRECT, [], some ⟨0, 0, []⟩, false⟩ [97, 27]
        FlushType.HIT_TIMER = some (st', msgs) ∧
      st'.term_state = TermState.IN_EXEC_DIRECT ∧
      ∃ x, st'.pending_out = x ++
        (([] : List Nat) ++ [97, 27].filter (fun b => decide (b ≠ 0))).drop 1) := by
  constructor
  · exact (c2_promote_or_truncate feedConst _ [8] FlushType.FORCED ⟨0, 0, []⟩
      rfl rfl).1 (Or.inl (by decide))
  · exact (c2_promote_or_truncate feedConst _ [97, 27] FlushType.HIT_TIMER
      ⟨0, 0, []⟩ rfl rfl).2 1 (by decide)
      (escScan_cut_of (by decide) rfl)

/-- C8: in `EXEC_TERMEMU` mode, on a `HIT_TIMER` or `FORCED` flush with no
effective new bytes, `handle_ptm` emits exactly one `DISPLAY` message whose
payload is 25 newline-terminated lines: a header of spaces with `'|'` at
position `cursor.x + 1`, then the 24 screen rows, each right-trimmed of
trailing spaces and prefixed with `'-'` on the cursor row and `' '`
elsewhere.  The whitespace hypothesis records that `pyte` screen cells hold
no whitespace character other than a plain space, which makes Python's
`rstrip()` agree with trimming spaces. -/
theorem c8_display_shape (feed : Screen → List Nat → Screen) (st : CommSt)
    (data0 : List Nat) (ft : FlushType) (scr : Screen)
    (hts : st.term_state = TermState.IN_EXEC_TERMEMU)
    (hscr : st.te_screen = some scr)
    (hdata : data0.filter (fun b => decide (b ≠ 0)) = [])
    (hft : ft = FlushType.HIT_TIMER ∨ ft = FlushType.FORCED)
    (h24 : scr.display.length = 24)
    (hws : ∀ row ∈ scr.display, ∀ c ∈ row, isPySpace c = true → c = ' ') :
    handle_ptm feed st data0 ft =
      some ({ st with pending_out := [], has_flush_wait := false },
        [Msg.display (joinLines (displayLines scr))]) ∧
    (displayLines scr).length = 25 ∧
    (displayLines scr).head? = some (List.replicate (scr.x + 1) ' ' ++ ['|']) ∧
    ∀ l ∈ displayLines scr, '\n' ∉ l := by
  have hft' : ft ≠ FlushType.IF_NECESSARY := by
    rcases hft with h | h <;> subst h <;> simp
  refine ⟨?_, displayLines_length scr h24, rfl, displayLines_no_newline scr hws⟩
  rw [handle_ptm_eq, hdata]
  rw [if_neg (by simp)]
  rw [ptmLoop_termemu_eval ft st [] false scr hts hscr]
  rw [if_pos hft']
  dsimp only
  rw [render_display_eq scr hws]

/-- Witness for C8: a TERMEMU session over a 24-row blank 3-column screen
with the cursor at column 2, row 1, flushed on a timer tick. -/
theorem c8_witness :
    handle_ptm feedConst
      ⟨TermState.IN_EXEC_TERMEMU, [13],
        some ⟨2, 1, List.replicate 24 (List.replicate 3 ' ')⟩, true⟩ []
      FlushType.HIT_TIMER =
      some (⟨TermState.IN_EXEC_TERMEMU, [],
          some ⟨2, 1, List.replicate 24 (List.replicate 3 ' ')⟩, false⟩,
        [Msg.display (joinLines (displayLines
          ⟨2, 1, List.replicate 24 (List.replicate 3 ' ')⟩))]) ∧
    (displayLines ⟨2, 1, List.replicate 24 (List.replicate 3 ' ')⟩).length =
      25 ∧
    (displayLines ⟨2, 1, List.replicate 24 (List.replicate 3 ' ')⟩).head? =
      some (List.replicate 3 ' ' ++ ['|']) ∧
    ∀ l ∈ displayLines ⟨2, 1, List.replicate 24 (List.replicate 3 ' ')⟩,
      '\n' ∉ l :=
  c8_display_shape feedConst
    ⟨TermState.IN_EXEC_TERMEMU, [13],
      some ⟨2, 1, List.replicate 24 (List.replicate 3 ' ')⟩, true⟩ []
    FlushType.HIT_TIMER ⟨2, 1, List.replicate 24 (List.replicate 3 ' ')⟩
    rfl rfl rfl (Or.inl rfl) (by decide) (by decide)

theorem replaceCRLF_step {l : List Nat} (h : hasCRLF l = true) :
    replaceCRLF l = replaceCRLF (replaceCRLF1 l) := by
  rw [replaceCRLF, dif_pos h]

/-- C1 (refuted — code bug): over the episode that delivers `"ab\r"` and
then `"\ncd\n"` to a fresh `DIRECT` session (each followed by a timer
flush, so nothing is left unflushed), the concatenated `DIRECT` payloads
are `"ab\r\ncd\n"`, while the spec's normalization of the same stream is
`"ab\ncd\n"`: because comm.py line 508 compares `data[-1]` (an `int`)
against `b'\r'` (a `bytes`) — always `False` in Python 3 — the trailing CR
of the first chunk is flushed instead of being held back, so the CRLF that
straddles the two chunks is never collapsed.  The concatenation differs
from the normalized stream and is not even a prefix of it, so no
"unflushed tail" reading rescues the claim. -/
theorem c1_stream_counterexample :
    handle_ptm feedConst ⟨TermState.IN_EXEC_DIRECT, [], some ⟨0, 0, []⟩, false⟩
      [97, 98, 13] FlushType.IF_NECESSARY =
      some (⟨TermState.IN_EXEC_DIRECT, [97, 98, 13], some ⟨0, 0, []⟩, true⟩,
        []) ∧
    handle_ptm feedConst
      ⟨TermState.IN_EXEC_DIRECT, [97, 98, 13], some ⟨0, 0, []⟩, true⟩ []
      FlushType.HIT_TIMER =
      some (⟨TermState.IN_EXEC_DIRECT, [], some ⟨0, 0, []⟩, false⟩,
        [Msg.direct [97, 98, 13]]) ∧
    handle_ptm feedConst ⟨TermState.IN_EXEC_DIRECT, [], some ⟨0, 0, []⟩, false⟩
      [10, 99, 100, 10] FlushType.IF_NECESSARY =
      some (⟨TermState.IN_EXEC_DIRECT, [10, 99, 100, 10], some ⟨0, 0, []⟩,
        true⟩, []) ∧
    handle_ptm feedConst
      ⟨TermState.IN_EXEC_DIRECT, [10, 99, 100, 10], some ⟨0, 0, []⟩, true⟩ []
      FlushType.HIT_TIMER =
      some (⟨TermState.IN_EXEC_DIRECT, [], some ⟨0, 0, []⟩, false⟩,
        [Msg.direct [10, 99, 100, 10]]) ∧
    [97, 98, 13] ++ [10, 99, 100, 10] = ([97, 98, 13, 10, 99, 100, 10] :
      List Nat) ∧
    normalizeBytes (strip_sgr_osc (remove_nul [97, 98, 13, 10, 99, 100, 10])) =
      [97, 98, 10, 99, 100, 10] ∧
    ([97, 98, 13, 10, 99, 100, 10] : List Nat) ≠ [97, 98, 10, 99, 100, 10] ∧
    List.isPrefixOf ([97, 98, 13, 10, 99, 100, 10] : List Nat)
      [97, 98, 10, 99, 100, 10] = false := by
  have hdf1 : directFlush FlushType.IF_NECESSARY
      (([] : List Nat) ++ [97, 98, 13]) [] false =
      .ok (.done [97, 98, 13] true []) := by
    have htrim : trim_sgr_osc (([] : List Nat) ++ [97, 98, 13]) true =
        .ok (([] : List Nat) ++ [97, 98, 13]) := trimLoop_noesc true (by decide)
    unfold directFlush
    rw [htrim]
    dsimp only
    rw [replaceCRLF_noop (by decide)]
    rfl
  have h1 : handle_ptm feedConst
      ⟨TermState.IN_EXEC_DIRECT, [], some ⟨0, 0, []⟩, false⟩ [97, 98, 13]
      FlushType.IF_NECESSARY =
      some (⟨TermState.IN_EXEC_DIRECT, [97, 98, 13], some ⟨0, 0, []⟩, true⟩,
        []) := by
    rw [handle_ptm_as_loop feedConst _ _ _ rfl rfl]
    rw [ptmLoop_clean_done FlushType.IF_NECESSARY _ [97, 98, 13] false
      [97, 98, 13] true [] rfl (by decide) (escScan_noesc (by decide)) hdf1]
  have hdf2 : directFlush FlushType.HIT_TIMER
      (([97, 98, 13] : List Nat) ++ []) [] false =
      .ok (.done [] false [Msg.direct [97, 98, 13]]) := by
    have htrim : trim_sgr_osc (([97, 98, 13] : List Nat) ++ []) true =
        .ok (([97, 98, 13] : List Nat) ++ []) := trimLoop_noesc true (by decide)
    unfold directFlush
    rw [htrim]
    dsimp only
    rw [replaceCRLF_noop (by decide)]
    rfl
  have h2 : handle_ptm feedConst
      ⟨TermState.IN_EXEC_DIRECT, [97, 98, 13], some ⟨0, 0, []⟩, true⟩ []
      FlushType.HIT_TIMER =
      some (⟨TermState.IN_EXEC_DIRECT, [], some ⟨0, 0, []⟩, false⟩,
        [Msg.direct [97, 98, 13]]) := by
    rw [handle_ptm_as_loop feedConst _ _ _ rfl rfl]
    rw [ptmLoop_clean_done FlushType.HIT_TIMER _ [] false [] false
      [Msg.direct [97, 98, 13]] rfl (by decide) (escScan_noesc (by decide))
      hdf2]
  have hdf3 : directFlush FlushType.IF_NECESSARY
      (([] : List Nat) ++ [10, 99, 100, 10]) [] false =
      .ok (.done [10, 99, 100, 10] true []) := by
    have htrim : trim_sgr_osc (([] : List Nat) ++ [10, 99, 100, 10]) true =
        .ok (([] : List Nat) ++ [10, 99, 100, 10]) :=
      trimLoop_noesc true (by decide)
    unfold directFlush
    rw [htrim]
    dsimp only
    rw [replaceCRLF_noop (by decide)]
    rfl
  have h3 : handle_ptm feedConst
      ⟨TermState.IN_EXEC_DIRECT, [], some ⟨0, 0, []⟩, false⟩ [10, 99, 100, 10]
      FlushType.IF_NECESSARY =
      some (⟨TermState.IN_EXEC_DIRECT, [10, 99, 100, 10], some ⟨0, 0, []⟩,
        true⟩, []) := by
    rw [handle_ptm_as_loop feedConst _ _ _ rfl rfl]
    rw [ptmLoop_clean_done FlushType.IF_NECESSARY _ [10, 99, 100, 10] false
      [10, 99, 100, 10] true [] rfl (by decide) (escScan_noesc (by decide))
      hdf3]
  have hdf4 : directFlush FlushType.HIT_TIMER
      (([10, 99, 100, 10] : List Nat) ++ []) [] false =
      .ok (.done [] false [Msg.direct [10, 99, 100, 10]]) := by
    have htrim : trim_sgr_osc (([10, 99, 100, 10] : List Nat) ++ []) true =
        .ok (([10, 99, 100, 10] : List Nat) ++ []) :=
      trimLoop_noesc true (by decide)
    unfold directFlush
    rw [htrim]
    dsimp only
    rw [replaceCRLF_noop (by decide)]
    rfl
  have h4 : handle_ptm feedConst
      ⟨TermState.IN_EXEC_DIRECT, [10, 99, 100, 10], some ⟨0, 0, []⟩, true⟩ []
      FlushType.HIT_TIMER =
      some (⟨TermState.IN_EXEC_DIRECT, [], some ⟨0, 0, []⟩, false⟩,
        [Msg.direct [10, 99, 100, 10]]) := by
    rw [handle_ptm_as_loop feedConst _ _ _ rfl rfl]
    rw [ptmLoop_clean_done FlushType.HIT_TIMER _ [] false [] false
      [Msg.direct [10, 99, 100, 10]] rfl (by decide) (escScan_noesc (by decide))
      hdf4]
  have hnorm : normalizeBytes
      (strip_sgr_osc (remove_nul [97, 98, 13, 10, 99, 100, 10])) =
      [97, 98, 10, 99, 100, 10] := by
    have htrim : trim_sgr_osc (remove_nul [97, 98, 13, 10, 99, 100, 10])
        false = .ok (remove_nul [97, 98, 13, 10, 99, 100, 10]) :=
      trimLoop_noesc false (by decide)
    unfold normalizeBytes strip_sgr_osc
    rw [htrim]
    dsimp only
    rw [replaceCRLF_step (by decide), replaceCRLF_noop (by decide)]
    decide
  exact ⟨h1, h2, h3, h4, by decide, hnorm, by decide, by decide⟩
